import Mathlib

/-!
Verification of the kuberbac policy compiler and binding synthesizer.

This file shallowly embeds the Go source of the kuberbac repository
(prosimcorp/kuberbac) into Lean 4:

* the rule-compiler pipeline of `PolicyRulesProcessorT`
  (ExpandPolicyRules, StretchPolicyRules, GetMapFromStretchedPolicyRules,
  EvaluateSpecialCases, EvaluatePolicyRules, SplitPolicyRules,
  GetSurvivingVerbs);
* the binding synthesizer of `DynamicRoleBindingReconciler`
  (CheckNameSelector / CheckNamespaceSelector / CheckMetaSelector,
  FilterNamespaceListBySelector, GetServiceAccountsBySelectors, SyncTarget);
* the deletion branch of `DynamicClusterRoleReconciler.Reconcile` and
  `DeleteTargets`.

Go maps (`map[string]T`) are embedded as association lists with string keys:
lookup returns the first binding, insertion replaces in place or appends,
deletion removes every binding of the key.  Go map iteration order is
unspecified; the embedding fixes insertion order as the canonical
iteration order.  The Kubernetes client and the discovery data are
parameters of the embedding (fields of `PolicyRulesProcessor` /
`ClusterState`), and Go's `regexp` engine is abstracted into a
`RegexEngine` record of oracles.  String primitives from Go's `strings`
package are re-implemented structurally on `String.data` so that all
definitions evaluate by kernel reduction.
-/

set_option autoImplicit false

namespace Kuberbac

/-! ## String primitives (structural models of Go `strings` functions) -/

/-- Model of `strings.HasPrefix` on character lists: first list is a prefix
of the second. -/
def startsWithChars : List Char → List Char → Bool
  | [], _ => true
  | _ :: _, [] => false
  | a :: as, b :: bs => if a = b then startsWithChars as bs else false

/-- Model of `strings.HasPrefix s pre`. -/
def strStartsWith (s pre : String) : Bool :=
  startsWithChars pre.data s.data

/-- Model of `strings.HasSuffix s suf`. -/
def strEndsWith (s suf : String) : Bool :=
  startsWithChars suf.data.reverse s.data.reverse

/-- Model of `strings.TrimSuffix s "*"`: drops one trailing `*` when present. -/
def strTrimSuffixStar (s : String) : String :=
  if strEndsWith s "*" then String.mk s.data.dropLast else s

/-- Worker for `splitOnChar`; accumulates the current segment reversed. -/
def splitOnCharAux (c : Char) : List Char → List Char → List String
  | [], acc => [String.mk acc.reverse]
  | x :: xs, acc =>
      if x = c then String.mk acc.reverse :: splitOnCharAux c xs []
      else splitOnCharAux c xs (x :: acc)

/-- Model of `strings.Split s (String.mk [c])` for a one-character separator:
splits at every occurrence, keeping empty segments (`"a#" ↦ ["a", ""]`). -/
def splitOnChar (c : Char) (s : String) : List String :=
  splitOnCharAux c s.data []

/-- Model of `strings.Join parts "#"`. -/
def joinHash : List String → String
  | [] => ""
  | [x] => x
  | x :: y :: rest => x ++ "#" ++ joinHash (y :: rest)

/-- Byte-wise comparison backing the Go `slices.Sort` over strings. -/
def charListLe : List Char → List Char → Bool
  | [], _ => true
  | _ :: _, [] => false
  | a :: as, b :: bs =>
      if a = b then charListLe as bs else decide (a.toNat < b.toNat)

/-- Lexicographic `≤` on strings, mirroring Go's byte order for ASCII data. -/
def strLeBool (a b : String) : Bool := charListLe a.data b.data

/-- Insertion step of the sort used to model `slices.Sort`. -/
def insertSortedStr (x : String) : List String → List String
  | [] => [x]
  | y :: ys => if strLeBool x y then x :: y :: ys else y :: insertSortedStr x ys

/-- Model of `slices.Sort` on a string slice (insertion sort; the result is
the same sorted list Go produces). -/
def sortStrings (l : List String) : List String := l.foldr insertSortedStr []

/-- Model of `slices.Compact`: removes consecutive duplicates. -/
def compactStrings : List String → List String
  | [] => []
  | [x] => [x]
  | x :: y :: rest =>
      if x = y then compactStrings (y :: rest) else x :: compactStrings (y :: rest)

/-- `slices.Sort` followed by `slices.Compact`, as used when merging verb sets. -/
def sortCompact (l : List String) : List String := compactStrings (sortStrings l)

/-! ## Association lists: the embedding of Go `map[string]T` -/

/-- Go map read `m[k]` (present case): first binding of the key. -/
def alookup {α : Type} : List (String × α) → String → Option α
  | [], _ => none
  | (k, v) :: rest, key => if k = key then some v else alookup rest key

/-- Go map write `m[k] = v`: replaces the first binding in place, otherwise
appends. -/
def ainsert {α : Type} : List (String × α) → String → α → List (String × α)
  | [], key, val => [(key, val)]
  | (k, v) :: rest, key, val =>
      if k = key then (k, val) :: rest else (k, v) :: ainsert rest key val

/-- Go `delete(m, k)`: removes every binding of the key. -/
def aerase {α : Type} (m : List (String × α)) (key : String) : List (String × α) :=
  m.filter (fun e => decide (e.1 ≠ key))

/-- Model of `globals.IsSubset` (internal/globals/utils.go): every key of
`smaller` is present in `larger` with the same value. -/
def IsSubset (smaller larger : List (String × String)) : Bool :=
  smaller.all (fun kv => decide (alookup larger kv.1 = some kv.2))

instance {ε α : Type} [DecidableEq ε] [DecidableEq α] : DecidableEq (Except ε α) :=
  fun a b =>
    match a, b with
    | .error e1, .error e2 =>
        if h : e1 = e2 then isTrue (by rw [h])
        else isFalse (fun he => h (Except.error.inj he))
    | .error _, .ok _ => isFalse (fun he => Except.noConfusion he)
    | .ok _, .error _ => isFalse (fun he => Except.noConfusion he)
    | .ok v1, .ok v2 =>
        if h : v1 = v2 then isTrue (by rw [h])
        else isFalse (fun he => h (Except.ok.inj he))

/-! ### Association-list lemmas -/

theorem alookup_ainsert_self {α : Type} (m : List (String × α)) (k : String) (v : α) :
    alookup (ainsert m k v) k = some v := by
  induction m with
  | nil => simp [ainsert, alookup]
  | cons hd tl ih =>
      obtain ⟨k', v'⟩ := hd
      by_cases h : k' = k
      · simp [ainsert, h, alookup]
      · simp [ainsert, h, alookup, ih]

theorem alookup_ainsert_ne {α : Type} (m : List (String × α)) (k k' : String) (v : α)
    (h : k ≠ k') : alookup (ainsert m k v) k' = alookup m k' := by
  induction m with
  | nil => simp [ainsert, alookup, h]
  | cons hd tl ih =>
      obtain ⟨k0, v0⟩ := hd
      by_cases h0 : k0 = k
      · subst h0
        simp [ainsert, alookup, h]
      · simp [ainsert, h0, alookup, ih]

theorem alookup_aerase_self {α : Type} (m : List (String × α)) (k : String) :
    alookup (aerase m k) k = none := by
  induction m with
  | nil => simp [aerase, alookup]
  | cons hd tl ih =>
      obtain ⟨k0, v0⟩ := hd
      by_cases h0 : k0 = k
      · simpa [aerase, h0] using ih
      · simpa [aerase, h0, alookup] using ih

theorem alookup_aerase_ne {α : Type} (m : List (String × α)) (k k' : String)
    (h : k ≠ k') : alookup (aerase m k) k' = alookup m k' := by
  induction m with
  | nil => simp [aerase, alookup]
  | cons hd tl ih =>
      obtain ⟨k0, v0⟩ := hd
      by_cases h0 : k0 = k
      · subst h0
        have hne : k0 ≠ k' := h
        simp [aerase, alookup, hne] at ih ⊢
        exact ih
      · by_cases h1 : k0 = k'
        · subst h1
          simp [aerase, alookup, List.filter_cons, h0]
        · simp [aerase, alookup, List.filter_cons, h0, h1] at ih ⊢
          exact ih

theorem mem_ainsert {α : Type} (m : List (String × α)) (k : String) (v : α)
    (e : String × α) (h : e ∈ ainsert m k v) : e = (k, v) ∨ e ∈ m := by
  induction m with
  | nil => simpa [ainsert] using h
  | cons hd tl ih =>
      obtain ⟨k0, v0⟩ := hd
      by_cases h0 : k0 = k
      · subst h0
        simp only [ainsert, if_pos rfl] at h
        rcases List.mem_cons.mp h with h1 | h1
        · exact Or.inl h1
        · exact Or.inr (List.mem_cons_of_mem _ h1)
      · simp only [ainsert, if_neg h0] at h
        rcases List.mem_cons.mp h with h1 | h1
        · exact Or.inr (h1 ▸ List.mem_cons_self _ _)
        · rcases ih h1 with h2 | h2
          · exact Or.inl h2
          · exact Or.inr (List.mem_cons_of_mem _ h2)

theorem mem_aerase {α : Type} (m : List (String × α)) (k : String)
    (e : String × α) (h : e ∈ aerase m k) : e ∈ m :=
  List.mem_of_mem_filter h

/-! ## Data model of the rule compiler -/

/-- Embedding of `rbacv1.PolicyRule` (the five slice fields used by the
code); a nil Go slice is the empty list. -/
structure PolicyRule where
  apiGroups : List String
  resources : List String
  resourceNames : List String
  nonResourceURLs : List String
  verbs : List String
  deriving DecidableEq

/-- The Go zero value `rbacv1.PolicyRule{}`. -/
def emptyPolicyRule : PolicyRule := ⟨[], [], [], [], []⟩

/-- Embedding of the `GVKR` record of part_003: one discovered resource type. -/
structure GVKR where
  group : String
  version : String
  kind : String
  resource : String
  subresource : String
  namespaced : Bool
  usableVerbs : List String
  deriving DecidableEq

/-- The Go zero value `GVKR{}`. -/
def emptyGVKR : GVKR := ⟨"", "", "", "", "", false, []⟩

/-- `gvkr.Resource` joined with the optional subresource, as rebuilt at the
use sites (`res.Resource + "/" + res.Subresource`). -/
def GVKR.fullResource (g : GVKR) : String :=
  if g.subresource = "" then g.resource else g.resource ++ "/" ++ g.subresource

/-- Embedding of `PolicyRulesProcessorT`: the two inventory indices plus
the generic-client instance lister used by `EvaluateSpecialCases`
(`p.Client.List` on an `UnstructuredList` of the given GVK, abstracted to
the listed object names). -/
structure PolicyRulesProcessor where
  resourcesByGroup : List (String × List GVKR)
  resourceList : List String
  listInstances : GVKR → List String

/-- Embedding of `SetResourceList`: flattens `ResourcesByGroup` into the
`resource[/subresource]` existence list. -/
def BuildResourceList (resourcesByGroup : List (String × List GVKR)) : List String :=
  resourcesByGroup.foldl (fun acc e => acc ++ e.2.map GVKR.fullResource) []

/-- The eight canonical verbs that `*` expands to. -/
def canonicalVerbs : List String :=
  ["create", "delete", "deletecollection", "get", "list", "patch", "update", "watch"]

/-- The compiled allow/deny maps: `AtomicKey → PolicyRule`. -/
abbrev RuleMap := List (String × PolicyRule)

/-! ## GetSurvivingVerbs (part_003 lines 136-158) -/

/-- First loop of `GetSurvivingVerbs`: seed the counter map with 1 for each
allow verb. -/
def survivorSeed (allowVerbs : List String) : List (String × Nat) :=
  allowVerbs.foldl (fun m v => ainsert m v 1) []

/-- Second loop of `GetSurvivingVerbs`: bump the counter of each deny verb
already present in the map. -/
def survivorBump (m : List (String × Nat)) (denyVerbs : List String) :
    List (String × Nat) :=
  denyVerbs.foldl (fun m v =>
    match alookup m v with
    | none => m
    | some n => ainsert m v (n + 1)) m

/-- Embedding of `GetSurvivingVerbs`: builds a counter map seeded at 1 from
the allow verbs, bumps counters for deny verbs already present, and keeps
the verbs whose counter stayed at 1. -/
def GetSurvivingVerbs (allowVerbs denyVerbs : List String) : List String :=
  ((survivorBump (survivorSeed allowVerbs) denyVerbs).filter
    (fun e => e.2 == 1)).map Prod.fst

/-! ## ExpandPolicyRules (part_003 lines 161-271) -/

/-- Expansion of a single rule, `none` when one of the four validity checks
drops it (the `continue` branches of the Go loop). -/
def expandOne (p : PolicyRulesProcessor) (r : PolicyRule) : Option PolicyRule :=
  if r.verbs = [] then none
  else if r.nonResourceURLs ≠ [] ∧
          (r.apiGroups ≠ [] ∨ r.resources ≠ [] ∨ r.resourceNames ≠ []) then none
  else if r.nonResourceURLs = [] ∧ (r.apiGroups = [] ∨ r.resources = []) then none
  else if r.resourceNames ≠ [] ∧ (r.apiGroups = [] ∨ r.resources = []) then none
  else
    let groups :=
      if "*" ∈ r.apiGroups then p.resourcesByGroup.map Prod.fst
      else r.apiGroups.filter (fun g => decide ((alookup p.resourcesByGroup g).isSome = true))
    let resources :=
      if "*" ∈ r.resources then
        groups.foldl (fun acc g =>
          acc ++ ((alookup p.resourcesByGroup g).getD []).map GVKR.fullResource) []
      else r.resources.filter (fun res => decide (res ∈ p.resourceList))
    let newGroups := resources.foldl (fun ng res =>
      groups.foldl (fun ng g =>
        if (((alookup p.resourcesByGroup g).getD []).any
              (fun gvkr => decide (gvkr.resource = (splitOnChar '/' res).getD 0 ""))) ∧
           g ∉ ng
        then ng ++ [g] else ng) ng) []
    some { apiGroups := newGroups
           resources := resources
           resourceNames := r.resourceNames
           nonResourceURLs := r.nonResourceURLs
           verbs := if "*" ∈ r.verbs then canonicalVerbs else r.verbs }

/-- Embedding of `ExpandPolicyRules`. -/
def ExpandPolicyRules (p : PolicyRulesProcessor) (policyRules : List PolicyRule) :
    List PolicyRule :=
  policyRules.foldl (fun acc r =>
    match expandOne p r with
    | none => acc
    | some r' => acc ++ [r']) []

/-! ## StretchPolicyRules (part_003 lines 274-337) -/

/-- Atomization of a single expanded rule: one atomic per URL, or one atomic
per `(resource, group)` pair that exists in the inventory, split further per
resource name. -/
def stretchOne (p : PolicyRulesProcessor) (r : PolicyRule) : List PolicyRule :=
  if r.nonResourceURLs ≠ [] then
    r.nonResourceURLs.map (fun url =>
      { emptyPolicyRule with nonResourceURLs := [url], verbs := r.verbs })
  else
    r.resources.foldl (fun acc res =>
      r.apiGroups.foldl (fun acc g =>
        let resourceFound := ((alookup p.resourcesByGroup g).getD []).any
          (fun gvkr => decide (gvkr.fullResource = res))
        if ¬ resourceFound then acc
        else if r.resourceNames ≠ [] then
          acc ++ r.resourceNames.map (fun n =>
            { apiGroups := [g], resources := [res], resourceNames := [n]
              nonResourceURLs := [], verbs := r.verbs })
        else
          acc ++ [{ apiGroups := [g], resources := [res], resourceNames := []
                    nonResourceURLs := [], verbs := r.verbs }]) acc) []

/-- Embedding of `StretchPolicyRules`. -/
def StretchPolicyRules (p : PolicyRulesProcessor) (policyRules : List PolicyRule) :
    List PolicyRule :=
  policyRules.foldl (fun acc r => acc ++ stretchOne p r) []

/-! ## GetMapFromStretchedPolicyRules (part_003 lines 341-393) -/

/-- Adds one stretched rule to the keyed map, merging verb sets
(sort + compact) when the atomic key is already present. -/
def addStretchedRule (m : RuleMap) (r : PolicyRule) : RuleMap :=
  if r.nonResourceURLs ≠ [] then
    let key := "nonresourceurl#" ++ r.nonResourceURLs.getD 0 ""
    match alookup m key with
    | some old =>
        ainsert m key
          { emptyPolicyRule with nonResourceURLs := r.nonResourceURLs
                                 verbs := sortCompact (old.verbs ++ r.verbs) }
    | none => ainsert m key r
  else
    let key := r.apiGroups.getD 0 "" ++ "#" ++ r.resources.getD 0 "" ++ "#" ++
               (if r.resourceNames ≠ [] then r.resourceNames.getD 0 "" else "")
    match alookup m key with
    | some old =>
        ainsert m key
          { apiGroups := r.apiGroups, resources := r.resources
            resourceNames := r.resourceNames, nonResourceURLs := []
            verbs := sortCompact (old.verbs ++ r.verbs) }
    | none => ainsert m key r

/-- Embedding of `GetMapFromStretchedPolicyRules`. -/
def GetMapFromStretchedPolicyRules (policyRules : List PolicyRule) : RuleMap :=
  policyRules.foldl addStretchedRule []

/-! ## EvaluateSpecialCases (part_003 lines 397-449) -/

/-- Embedding of the GVKR resolution inside `EvaluateSpecialCases`: scan the
deny rule's group for the bare resource name; the last match wins (the Go
loop assigns without `break`). -/
def resolveDenyGvkr (p : PolicyRulesProcessor) (dr : PolicyRule) : GVKR :=
  let coreResourceType := (splitOnChar '/' (dr.resources.getD 0 "")).getD 0 ""
  ((alookup p.resourcesByGroup (dr.apiGroups.getD 0 "")).getD []).foldl
    (fun acc gvkr => if gvkr.resource = coreResourceType then gvkr else acc) emptyGVKR

/-- The rule `EvaluateSpecialCases` writes for one live instance: the broad
allow's groups, resources and verbs, name-scoped to that instance
(part_003 lines 433-441). -/
def perInstanceAllow (broad : PolicyRule) (n : String) : PolicyRule :=
  { apiGroups := broad.apiGroups, resources := broad.resources
    resourceNames := [n], nonResourceURLs := [], verbs := broad.verbs }

/-- Processing of one deny entry by `EvaluateSpecialCases`: name-scoped deny
keys whose broad counterpart is in the allow map replace the broad allow by
one per-instance allow per listed live instance, then delete the broad key.
The broad rule is re-read from the map on each loop iteration, as in the Go
code. -/
def specialCaseStep (p : PolicyRulesProcessor) (m : RuleMap) (dk : String)
    (dr : PolicyRule) : RuleMap :=
  if strStartsWith dk "nonresourceurl" then m
  else
    let parts := splitOnChar '#' dk
    if parts.getD 2 "" = "" then m
    else
      let key := joinHash (parts.take 2) ++ "#"
      if (alookup m key).isSome then
        let instNames := p.listInstances (resolveDenyGvkr p dr)
        let m' := instNames.foldl (fun m n =>
          ainsert m (key ++ n)
            (perInstanceAllow ((alookup m key).getD emptyPolicyRule) n)) m
        aerase m' key
      else m

/-- Embedding of `EvaluateSpecialCases` (the error path of the instance list
is absorbed into the total `listInstances` oracle). -/
def EvaluateSpecialCases (p : PolicyRulesProcessor) (allowMap denyMap : RuleMap) :
    RuleMap :=
  denyMap.foldl (fun m e => specialCaseStep p m e.1 e.2) allowMap

/-! ## EvaluatePolicyRules (part_003 lines 452-529) -/

/-- The verb list of an optional map entry; an absent entry reads as the Go
zero value (empty verbs). -/
def verbsOfEntry (e : Option PolicyRule) : List String :=
  (e.map PolicyRule.verbs).getD []

/-- Exact-key subtraction: read the entry (zero value when absent), replace
its verbs by the surviving verbs, write it back, and delete the key when the
verbs became empty. -/
def subtractAtKey (m : RuleMap) (k : String) (denyVerbs : List String) : RuleMap :=
  let r := (alookup m k).getD emptyPolicyRule
  let m' := ainsert m k { r with verbs := GetSurvivingVerbs r.verbs denyVerbs }
  if verbsOfEntry (alookup m' k) = [] then aerase m' k else m'

/-- One step of the prefix-subtraction loops: when the visited key matches
the prefix its verbs are replaced by the surviving verbs; in every case the
visited key is deleted when its verbs are empty. -/
def prefixSubtractStep (denyVerbs : List String) (pre : String) (m : RuleMap)
    (k : String) : RuleMap :=
  let m1 :=
    if strStartsWith k pre then
      let r := (alookup m k).getD emptyPolicyRule
      ainsert m k { r with verbs := GetSurvivingVerbs r.verbs denyVerbs }
    else m
  if verbsOfEntry (alookup m1 k) = [] then aerase m1 k else m1

/-- Processing of one deny entry by `EvaluatePolicyRules`: URL wildcard
(prefix), URL exact, resource without name (prefix over `group#resource#`),
resource with name (exact, guarded on presence). -/
def evalDenyEntry (m : RuleMap) (dk : String) (dr : PolicyRule) : RuleMap :=
  if strStartsWith dk "nonresourceurl" then
    if strEndsWith dk "*" then
      (m.map Prod.fst).foldl (prefixSubtractStep dr.verbs (strTrimSuffixStar dk)) m
    else subtractAtKey m dk dr.verbs
  else
    let parts := splitOnChar '#' dk
    if parts.getD 2 "" = "" then
      (m.map Prod.fst).foldl (prefixSubtractStep dr.verbs dk) m
    else if (alookup m dk).isSome then subtractAtKey m dk dr.verbs
    else m

/-- Embedding of `EvaluatePolicyRules` (it never touches the processor's
fields, so it is a plain function of the two maps). -/
def EvaluatePolicyRules (allowMap denyMap : RuleMap) : RuleMap :=
  denyMap.foldl (fun m e => evalDenyEntry m e.1 e.2) allowMap

/-! ## SplitPolicyRules (part_003 lines 532-562) -/

/-- Scan of one group's descriptors for `SplitPolicyRules`.  `none` embeds
the Go runtime panic of `policyRule.Resources[0]` on an empty slice;
`some none` means no descriptor matched (the rule lands in neither list);
`some (some b)` reports the matched descriptor's scope. -/
def classifyScan (r : PolicyRule) : List GVKR → Option (Option Bool)
  | [] => some none
  | gvkr :: rest =>
      match r.resources with
      | [] => none
      | res :: _ =>
          if res ≠ gvkr.fullResource then classifyScan r rest
          else some (some gvkr.namespaced)

/-- Classification of one rule by `SplitPolicyRules`.  `none` embeds the Go
runtime panic of `policyRule.APIGroups[0]` on an empty slice — the fate of
every atomic `nonResourceURLs` rule, whose `apiGroups` is empty. -/
def classifyPolicyRule (p : PolicyRulesProcessor) (r : PolicyRule) :
    Option (Option Bool) :=
  match r.apiGroups with
  | [] => none
  | g :: _ => classifyScan r ((alookup p.resourcesByGroup g).getD [])

/-- Embedding of `SplitPolicyRules`: partitions into (clusterScopedRules,
namespaceScopedRules); `none` when any rule makes the Go code panic. -/
def SplitPolicyRules (p : PolicyRulesProcessor) (policyRules : List PolicyRule) :
    Option (List PolicyRule × List PolicyRule) :=
  policyRules.foldl (fun acc r =>
    match acc with
    | none => none
    | some (cs, ns) =>
        match classifyPolicyRule p r with
        | none => none
        | some none => some (cs, ns)
        | some (some true) => some (cs, ns ++ [r])
        | some (some false) => some (cs ++ [r], ns)) (some ([], []))

/-! ## The compiler pipeline (pure part of DynamicClusterRole SyncTarget,
part_003 lines 577-607) -/

/-- Expand + stretch + key-and-merge, the "key-merged" form of a rule list. -/
def KeyMergedPolicyRules (p : PolicyRulesProcessor) (rules : List PolicyRule) :
    RuleMap :=
  GetMapFromStretchedPolicyRules (StretchPolicyRules p (ExpandPolicyRules p rules))

/-- The full compile pipeline of `SyncTarget`: expand and stretch both
lists, key them, evaluate special cases, then evaluate the deny map. -/
def CompilePolicyRules (p : PolicyRulesProcessor) (allow deny : List PolicyRule) :
    RuleMap :=
  let allowMap := KeyMergedPolicyRules p allow
  let denyMap := KeyMergedPolicyRules p deny
  EvaluatePolicyRules (EvaluateSpecialCases p allowMap denyMap) denyMap

/-! ## Concrete inventories for witnesses and examples -/

/-- Discovery record of the core-group `pods` resource. -/
def podsGVKR : GVKR := ⟨"", "v1", "Pod", "pods", "", true, []⟩

/-- Discovery record of the `apps`-group `deployments` resource. -/
def deploymentsGVKR : GVKR := ⟨"apps", "v1", "Deployment", "deployments", "", true, []⟩

/-- A two-group inventory where `pods` lives only in the core group; the
instance lister returns nothing. -/
def inventoryPodsCore : PolicyRulesProcessor :=
  { resourcesByGroup := [("", [podsGVKR]), ("apps", [deploymentsGVKR])]
    resourceList := BuildResourceList [("", [podsGVKR]), ("apps", [deploymentsGVKR])]
    listInstances := fun _ => [] }

/-! ## Claim C1: verb subtraction is set difference, empty allows removed -/

theorem alookup_eq_none_iff {α : Type} (m : List (String × α)) (k : String) :
    alookup m k = none ↔ k ∉ m.map Prod.fst := by
  induction m with
  | nil => simp [alookup]
  | cons hd tl ih =>
      obtain ⟨k0, v0⟩ := hd
      by_cases h : k0 = k
      · subst h
        simp [alookup]
      · simp [alookup, h, ih, Ne.symm h]

theorem keys_ainsert {α : Type} (m : List (String × α)) (k : String) (v : α) :
    (ainsert m k v).map Prod.fst =
      if k ∈ m.map Prod.fst then m.map Prod.fst else m.map Prod.fst ++ [k] := by
  induction m with
  | nil => simp [ainsert]
  | cons hd tl ih =>
      obtain ⟨k0, v0⟩ := hd
      by_cases h : k0 = k
      · subst h
        simp [ainsert]
      · by_cases h2 : k ∈ tl.map Prod.fst
        · simp [ainsert, h, ih, h2, Ne.symm h]
        · simp [ainsert, h, ih, h2, Ne.symm h]

theorem nodupKeys_ainsert {α : Type} (m : List (String × α)) (k : String) (v : α)
    (h : (m.map Prod.fst).Nodup) : ((ainsert m k v).map Prod.fst).Nodup := by
  rw [keys_ainsert]
  by_cases h2 : k ∈ m.map Prod.fst
  · simpa [h2] using h
  · simp only [h2, if_false]
    refine List.Nodup.append h (List.nodup_singleton k) ?_
    intro x hx hk
    simp only [List.mem_singleton] at hk
    exact h2 (hk ▸ hx)

theorem mem_iff_alookup_of_nodup {α : Type} (m : List (String × α)) (k : String) (v : α)
    (h : (m.map Prod.fst).Nodup) : (k, v) ∈ m ↔ alookup m k = some v := by
  induction m with
  | nil => simp [alookup]
  | cons hd tl ih =>
      obtain ⟨k0, v0⟩ := hd
      simp only [List.map_cons, List.nodup_cons] at h
      by_cases hk : k0 = k
      · subst hk
        simp only [alookup, if_pos rfl, List.mem_cons]
        constructor
        · rintro (h1 | h1)
          · rw [Prod.mk.injEq] at h1
            exact congrArg some h1.2.symm
          · exact absurd (List.mem_map_of_mem Prod.fst h1) h.1
        · intro h1
          exact Or.inl (by simp at h1; simp [h1])
      · simp only [alookup, if_neg hk, List.mem_cons]
        rw [ih h.2]
        constructor
        · rintro (h1 | h1)
          · rw [Prod.mk.injEq] at h1
            exact absurd h1.1.symm hk
          · exact h1
        · exact Or.inr

theorem alookup_seedFold (l : List String) (acc : List (String × Nat)) (k : String) :
    alookup (l.foldl (fun m v => ainsert m v 1) acc) k =
      if k ∈ l then some 1 else alookup acc k := by
  induction l generalizing acc with
  | nil => simp
  | cons v rest ih =>
      simp only [List.foldl_cons]
      rw [ih]
      by_cases hm : k ∈ rest
      · simp [hm]
      · by_cases hv : v = k
        · subst hv
          simp [hm, alookup_ainsert_self]
        · simp [hm, hv, alookup_ainsert_ne _ _ _ _ hv, Ne.symm hv]

theorem alookup_survivorSeed (allowVerbs : List String) (k : String) :
    alookup (survivorSeed allowVerbs) k = if k ∈ allowVerbs then some 1 else none := by
  rw [survivorSeed, alookup_seedFold]
  simp [alookup]

theorem nodupKeys_seedFold (l : List String) (acc : List (String × Nat))
    (h : (acc.map Prod.fst).Nodup) :
    ((l.foldl (fun m v => ainsert m v 1) acc).map Prod.fst).Nodup := by
  induction l generalizing acc with
  | nil => simpa using h
  | cons v rest ih =>
      simp only [List.foldl_cons]
      exact ih _ (nodupKeys_ainsert _ _ _ h)

theorem nodupKeys_survivorSeed (allowVerbs : List String) :
    ((survivorSeed allowVerbs).map Prod.fst).Nodup :=
  nodupKeys_seedFold allowVerbs [] (by simp)

theorem alookup_survivorBump (denyVerbs : List String) (m : List (String × Nat))
    (k : String) :
    alookup (survivorBump m denyVerbs) k =
      (alookup m k).map (fun n => n + denyVerbs.count k) := by
  induction denyVerbs generalizing m with
  | nil => simp [survivorBump]
  | cons d rest ih =>
      simp only [survivorBump, List.foldl_cons] at ih ⊢
      rw [ih]
      cases h : alookup m d with
      | none =>
          by_cases hk : d = k
          · subst hk
            simp [h]
          · simp [List.count_cons, Ne.symm hk]
      | some n =>
          by_cases hk : d = k
          · subst hk
            simp [alookup_ainsert_self, h, List.count_cons]
            omega
          · rw [alookup_ainsert_ne _ _ _ _ hk]
            simp [List.count_cons, Ne.symm hk]

theorem keys_survivorBump (denyVerbs : List String) (m : List (String × Nat)) :
    (survivorBump m denyVerbs).map Prod.fst = m.map Prod.fst := by
  induction denyVerbs generalizing m with
  | nil => rfl
  | cons d rest ih =>
      simp only [survivorBump, List.foldl_cons] at ih ⊢
      cases h : alookup m d with
      | none => rw [ih]
      | some n =>
          rw [ih, keys_ainsert]
          have hd : d ∈ m.map Prod.fst := by
            by_contra hc
            rw [← alookup_eq_none_iff] at hc
            rw [hc] at h
            exact Option.noConfusion h
          simp [hd]

/-- The invariant of claim C1's second half: every map entry has a
non-empty verb list. -/
def EntriesNonEmptyVerbs (m : RuleMap) : Prop :=
  ∀ e ∈ m, e.2.verbs ≠ []

theorem inv_aerase (m : RuleMap) (k : String) (h : EntriesNonEmptyVerbs m) :
    EntriesNonEmptyVerbs (aerase m k) :=
  fun e he => h e (mem_aerase m k e he)

theorem inv_subtractAtKey (m : RuleMap) (k : String) (dv : List String)
    (h : EntriesNonEmptyVerbs m) : EntriesNonEmptyVerbs (subtractAtKey m k dv) := by
  unfold subtractAtKey
  set r := (alookup m k).getD emptyPolicyRule with hr
  set r' : PolicyRule := { r with verbs := GetSurvivingVerbs r.verbs dv } with hr2
  by_cases hempty : verbsOfEntry (alookup (ainsert m k r') k) = []
  · simp only [hempty, if_pos rfl]
    intro e he
    exact h e (mem_ainsert m k r' e (mem_aerase _ _ e he)
      |>.resolve_left (fun hek => by
        have : e.1 ≠ k := by
          have := List.of_mem_filter he
          simpa using this
        exact this (by rw [hek])))
  · simp only [hempty, if_neg (by exact hempty)]
    intro e he
    rcases mem_ainsert m k r' e he with h1 | h1
    · subst h1
      rw [alookup_ainsert_self] at hempty
      simpa [verbsOfEntry] using hempty
    · exact h e h1

theorem inv_prefixSubtractStep (dv : List String) (pre : String) (m : RuleMap)
    (k : String) (h : EntriesNonEmptyVerbs m) :
    EntriesNonEmptyVerbs (prefixSubtractStep dv pre m k) := by
  unfold prefixSubtractStep
  by_cases hpre : strStartsWith k pre = true
  · rw [if_pos hpre]
    set r := (alookup m k).getD emptyPolicyRule with hr
    set r' : PolicyRule := { r with verbs := GetSurvivingVerbs r.verbs dv } with hr2
    by_cases hempty : verbsOfEntry (alookup (ainsert m k r') k) = []
    · rw [if_pos hempty]
      intro e he
      rcases mem_ainsert m k r' e (mem_aerase _ _ e he) with h1 | h1
      · exfalso
        have hne : e.1 ≠ k := by
          have := List.of_mem_filter he
          simpa using this
        exact hne (by rw [h1])
      · exact h e h1
    · rw [if_neg hempty]
      intro e he
      rcases mem_ainsert m k r' e he with h1 | h1
      · subst h1
        rw [alookup_ainsert_self] at hempty
        simpa [verbsOfEntry] using hempty
      · exact h e h1
  · simp only [hpre]
    simp only [Bool.false_eq_true, if_false]
    by_cases hempty : verbsOfEntry (alookup m k) = []
    · simp only [hempty, if_pos rfl]
      exact inv_aerase m k h
    · simp only [hempty, if_neg (by exact hempty)]
      exact h

theorem inv_foldl {β : Type} (f : RuleMap → β → RuleMap) (l : List β) (m : RuleMap)
    (hf : ∀ m x, EntriesNonEmptyVerbs m → EntriesNonEmptyVerbs (f m x))
    (h : EntriesNonEmptyVerbs m) : EntriesNonEmptyVerbs (l.foldl f m) := by
  induction l generalizing m with
  | nil => simpa using h
  | cons x rest ih => exact ih _ (hf m x h)

theorem inv_evalDenyEntry (m : RuleMap) (dk : String) (dr : PolicyRule)
    (h : EntriesNonEmptyVerbs m) : EntriesNonEmptyVerbs (evalDenyEntry m dk dr) := by
  unfold evalDenyEntry
  by_cases h1 : strStartsWith dk "nonresourceurl" = true
  · simp only [h1, if_pos rfl]
    by_cases h2 : strEndsWith dk "*" = true
    · simp only [h2, if_pos rfl]
      exact inv_foldl _ _ _ (fun m k => inv_prefixSubtractStep dr.verbs _ m k) h
    · simp only [h2]
      simp only [Bool.false_eq_true, if_false]
      exact inv_subtractAtKey m dk dr.verbs h
  · simp only [h1]
    simp only [Bool.false_eq_true, if_false]
    by_cases h2 : (splitOnChar '#' dk).getD 2 "" = ""
    · simp only [h2, if_pos rfl]
      exact inv_foldl _ _ _ (fun m k => inv_prefixSubtractStep dr.verbs _ m k) h
    · simp only [h2, if_neg (by exact h2)]
      by_cases h3 : (alookup m dk).isSome = true
      · simp only [h3, if_pos rfl]
        exact inv_subtractAtKey m dk dr.verbs h
      · simp only [h3]
        simp only [Bool.false_eq_true, if_false]
        exact h

/-- **C1.** `GetSurvivingVerbs` returns exactly the set difference of the
allow verbs and the deny verbs, and `EvaluatePolicyRules` never leaves an
entry whose verb set became empty in its output map (given that the input
allow map, as produced by the pipeline, has no empty verb set). -/
theorem getSurvivingVerbs_set_difference_and_empty_entries_removed :
    (∀ (allowVerbs denyVerbs : List String) (v : String),
        v ∈ GetSurvivingVerbs allowVerbs denyVerbs ↔
          v ∈ allowVerbs ∧ v ∉ denyVerbs) ∧
    (∀ (allowMap denyMap : RuleMap), EntriesNonEmptyVerbs allowMap →
        EntriesNonEmptyVerbs (EvaluatePolicyRules allowMap denyMap)) := by
  constructor
  · intro allowVerbs denyVerbs v
    unfold GetSurvivingVerbs
    have hnodup : ((survivorBump (survivorSeed allowVerbs) denyVerbs).map Prod.fst).Nodup := by
      rw [keys_survivorBump]
      exact nodupKeys_survivorSeed allowVerbs
    constructor
    · intro hv
      rcases List.mem_map.mp hv with ⟨e, he, hfst⟩
      obtain ⟨k, n⟩ := e
      have hmem := List.mem_of_mem_filter he
      have hcount : n = 1 := by
        have := List.of_mem_filter he
        simpa using this
      subst hcount
      subst hfst
      have hl := (mem_iff_alookup_of_nodup _ _ _ hnodup).mp hmem
      rw [alookup_survivorBump, alookup_survivorSeed] at hl
      by_cases hin : k ∈ allowVerbs
      · simp only [hin, if_pos rfl, Option.map_some] at hl
        have : 1 + denyVerbs.count k = 1 := by
          simpa using hl.symm
        have hc : denyVerbs.count k = 0 := by omega
        exact ⟨hin, List.count_eq_zero.mp hc⟩
      · simp [hin] at hl
    · rintro ⟨hin, hout⟩
      have hl : alookup (survivorBump (survivorSeed allowVerbs) denyVerbs) v = some 1 := by
        rw [alookup_survivorBump, alookup_survivorSeed]
        simp [hin, List.count_eq_zero.mpr hout]
      have hmem := (mem_iff_alookup_of_nodup _ _ _ hnodup).mpr hl
      exact List.mem_map.mpr ⟨(v, 1), List.mem_filter.mpr ⟨hmem, by simp⟩, rfl⟩
  · intro allowMap denyMap h
    unfold EvaluatePolicyRules
    exact inv_foldl _ _ _ (fun m e => inv_evalDenyEntry m e.1 e.2) h

/-- Witness for C1 at the spec's example: `allow={get,list,watch}`,
`deny={list}` keeps `get` and drops `list`, and a concrete evaluation leaves
only non-empty verb sets. -/
theorem getSurvivingVerbs_set_difference_witness :
    ("get" ∈ GetSurvivingVerbs ["get", "list", "watch"] ["list"] ∧
      "list" ∉ GetSurvivingVerbs ["get", "list", "watch"] ["list"]) ∧
    (⟨"#pods#", ⟨[""], ["pods"], [], [], ["get"]⟩⟩ : String × PolicyRule).2.verbs ≠ [] := by
  refine ⟨⟨?_, ?_⟩, ?_⟩
  · exact (getSurvivingVerbs_set_difference_and_empty_entries_removed.1
      ["get", "list", "watch"] ["list"] "get").mpr ⟨by decide, by decide⟩
  · intro hmem
    have := (getSurvivingVerbs_set_difference_and_empty_entries_removed.1
      ["get", "list", "watch"] ["list"] "list").mp hmem
    exact absurd (by decide : "list" ∈ ["list"]) this.2
  · exact getSurvivingVerbs_set_difference_and_empty_entries_removed.2
      [("#pods#", ⟨[""], ["pods"], [], [], ["get", "list"]⟩)]
      [("#pods#", ⟨[""], ["pods"], [], [], ["list"]⟩)]
      (by intro e he; simp at he; subst he; decide)
      ⟨"#pods#", ⟨[""], ["pods"], [], [], ["get"]⟩⟩
      (by decide)

/-! ## Claim C4: additivity — empty deny means evaluation changes nothing -/

/-- A rule mentions no `*` in any of its five fields. -/
def NoWildcards (r : PolicyRule) : Prop :=
  "*" ∉ r.apiGroups ∧ "*" ∉ r.resources ∧ "*" ∉ r.resourceNames ∧
    "*" ∉ r.nonResourceURLs ∧ "*" ∉ r.verbs

/-- Every group and resource the rule references exists in the inventory. -/
def ReferencesExist (p : PolicyRulesProcessor) (r : PolicyRule) : Prop :=
  (∀ g ∈ r.apiGroups, (alookup p.resourcesByGroup g).isSome) ∧
    (∀ res ∈ r.resources, res ∈ p.resourceList)

/-- **C4.** For an allow list without wildcards whose referenced groups and
resources all exist in the inventory, and an empty deny list, the compiled
map equals the key-merged (expand + stretch + key-and-merge) form of the
allow input: the evaluation stages change nothing. -/
theorem compile_with_empty_deny_is_key_merged_allow
    (p : PolicyRulesProcessor) (allow : List PolicyRule)
    (_hnw : ∀ r ∈ allow, NoWildcards r)
    (_hex : ∀ r ∈ allow, ReferencesExist p r) :
    CompilePolicyRules p allow [] = KeyMergedPolicyRules p allow := rfl

/-- Witness for C4 on a concrete wildcard-free allow list against the
two-group inventory. -/
theorem compile_with_empty_deny_is_key_merged_allow_witness :
    (∀ r ∈ [(⟨[""], ["pods"], [], [], ["get"]⟩ : PolicyRule)], NoWildcards r) ∧
    (∀ r ∈ [(⟨[""], ["pods"], [], [], ["get"]⟩ : PolicyRule)],
        ReferencesExist inventoryPodsCore r) ∧
    CompilePolicyRules inventoryPodsCore [⟨[""], ["pods"], [], [], ["get"]⟩] [] =
      KeyMergedPolicyRules inventoryPodsCore [⟨[""], ["pods"], [], [], ["get"]⟩] := by
  refine ⟨?_, ?_, ?_⟩
  · intro r hr
    simp only [List.mem_singleton] at hr
    subst hr
    refine ⟨by decide, by decide, by decide, by decide, by decide⟩
  · intro r hr
    simp only [List.mem_singleton] at hr
    subst hr
    constructor
    · intro g hg
      simp only [List.mem_singleton] at hg
      subst hg
      decide
    · intro res hres
      simp only [List.mem_singleton] at hres
      subst hres
      decide
  · exact compile_with_empty_deny_is_key_merged_allow inventoryPodsCore
      [⟨[""], ["pods"], [], [], ["get"]⟩]
      (by intro r hr; simp only [List.mem_singleton] at hr; subst hr
          exact ⟨by decide, by decide, by decide, by decide, by decide⟩)
      (by intro r hr; simp only [List.mem_singleton] at hr; subst hr
          refine ⟨?_, ?_⟩
          · intro g hg
            simp only [List.mem_singleton] at hg
            subst hg
            decide
          · intro res hres
            simp only [List.mem_singleton] at hres
            subst hres
            decide)

/-! ## Claim C3: Stage A re-tightens apiGroups to groups owning a retained
resource -/

/-- The group `g` owns (in the inventory) at least one of the retained
resources, compared on the bare resource name ignoring subresource. -/
def GroupOwnsSome (p : PolicyRulesProcessor) (resources : List String)
    (g : String) : Prop :=
  ∃ res ∈ resources, ∃ gvkr ∈ (alookup p.resourcesByGroup g).getD [],
    gvkr.resource = (splitOnChar '/' res).getD 0 ""

theorem innerGroupsFold_prop (p : PolicyRulesProcessor) (resources : List String)
    (res : String) (hres : res ∈ resources) :
    ∀ (gs ng : List String), (∀ g ∈ ng, GroupOwnsSome p resources g) →
      ∀ g ∈ gs.foldl (fun ng g =>
          if (((alookup p.resourcesByGroup g).getD []).any
                (fun gvkr => decide (gvkr.resource = (splitOnChar '/' res).getD 0 ""))) ∧
             g ∉ ng
          then ng ++ [g] else ng) ng,
        GroupOwnsSome p resources g := by
  intro gs
  induction gs with
  | nil => intro ng hng g hg; exact hng g hg
  | cons g0 rest ih =>
      intro ng hng g hg
      simp only [List.foldl_cons] at hg
      refine ih _ ?_ g hg
      intro g1 hg1
      by_cases hcond : (((alookup p.resourcesByGroup g0).getD []).any
          (fun gvkr => decide (gvkr.resource = (splitOnChar '/' res).getD 0 ""))) = true ∧
          g0 ∉ ng
      · rw [if_pos hcond] at hg1
        rcases List.mem_append.mp hg1 with h1 | h1
        · exact hng g1 h1
        · simp only [List.mem_singleton] at h1
          subst h1
          rcases List.any_eq_true.mp hcond.1 with ⟨gvkr, hgvkr, hmatch⟩
          exact ⟨res, hres, gvkr, hgvkr, of_decide_eq_true hmatch⟩
      · rw [if_neg hcond] at hg1
        exact hng g1 hg1

theorem outerGroupsFold_prop (p : PolicyRulesProcessor) (resources groups : List String) :
    ∀ (rs ng : List String), (∀ res ∈ rs, res ∈ resources) →
      (∀ g ∈ ng, GroupOwnsSome p resources g) →
      ∀ g ∈ rs.foldl (fun ng res =>
          groups.foldl (fun ng g =>
            if (((alookup p.resourcesByGroup g).getD []).any
                  (fun gvkr => decide (gvkr.resource = (splitOnChar '/' res).getD 0 ""))) ∧
               g ∉ ng
            then ng ++ [g] else ng) ng) ng,
        GroupOwnsSome p resources g := by
  intro rs
  induction rs with
  | nil => intro ng _ hng g hg; exact hng g hg
  | cons res rest ih =>
      intro ng hrs hng g hg
      simp only [List.foldl_cons] at hg
      refine ih _ (fun r hr => hrs r (List.mem_cons_of_mem _ hr)) ?_ g hg
      exact innerGroupsFold_prop p resources res (hrs res (List.mem_cons_self _ _))
        groups ng hng

theorem mem_expandFold (p : PolicyRulesProcessor) (rules : List PolicyRule) :
    ∀ (acc : List PolicyRule) (r : PolicyRule),
      r ∈ rules.foldl (fun acc r =>
        match expandOne p r with
        | none => acc
        | some r' => acc ++ [r']) acc →
      r ∈ acc ∨ ∃ r0 ∈ rules, expandOne p r0 = some r := by
  induction rules with
  | nil => intro acc r h; exact Or.inl h
  | cons r0 rest ih =>
      intro acc r h
      simp only [List.foldl_cons] at h
      cases hexp : expandOne p r0 with
      | none =>
          rw [hexp] at h
          rcases ih acc r h with h1 | ⟨r1, hr1, hr2⟩
          · exact Or.inl h1
          · exact Or.inr ⟨r1, List.mem_cons_of_mem _ hr1, hr2⟩
      | some r' =>
          rw [hexp] at h
          rcases ih (acc ++ [r']) r h with h1 | ⟨r1, hr1, hr2⟩
          · rcases List.mem_append.mp h1 with h2 | h2
            · exact Or.inl h2
            · simp only [List.mem_singleton] at h2
              subst h2
              exact Or.inr ⟨r0, List.mem_cons_self _ _, hexp⟩
          · exact Or.inr ⟨r1, List.mem_cons_of_mem _ hr1, hr2⟩

theorem expandOne_apiGroups_own_resource (p : PolicyRulesProcessor)
    (r0 r : PolicyRule) (h : expandOne p r0 = some r) :
    ∀ g ∈ r.apiGroups, GroupOwnsSome p r.resources g := by
  unfold expandOne at h
  split at h
  · exact absurd h (by simp)
  · split at h
    · exact absurd h (by simp)
    · split at h
      · exact absurd h (by simp)
      · split at h
        · exact absurd h (by simp)
        · simp only [Option.some.injEq] at h
          subst h
          intro g hg
          exact outerGroupsFold_prop p _ _ _ [] (fun res hres => hres)
            (by intro g1 hg1; exact absurd hg1 (List.not_mem_nil g1)) g hg

/-- **C3.** After Stage A expansion, every retained apiGroup owns (in the
inventory) at least one retained resource on the bare resource name; and
expanding `apiGroups=["*"]` with `resources=["pods"]` against an inventory
where `pods` exists only in the core group yields exactly the core group. -/
theorem expand_retightens_apiGroups :
    (∀ (p : PolicyRulesProcessor) (rules : List PolicyRule) (r : PolicyRule),
        r ∈ ExpandPolicyRules p rules →
        ∀ g ∈ r.apiGroups, GroupOwnsSome p r.resources g) ∧
    ExpandPolicyRules inventoryPodsCore [⟨["*"], ["pods"], [], [], ["get"]⟩] =
      [⟨[""], ["pods"], [], [], ["get"]⟩] := by
  constructor
  · intro p rules r h g hg
    rcases mem_expandFold p rules [] r h with h1 | ⟨r0, _, h2⟩
    · exact absurd h1 (List.not_mem_nil r)
    · exact expandOne_apiGroups_own_resource p r0 r h2 g hg
  · decide

/-- Witness for C3: the general half applied to the concrete wildcard
expansion; the core group owns `pods`. -/
theorem expand_retightens_apiGroups_witness :
    GroupOwnsSome inventoryPodsCore
      (⟨[""], ["pods"], [], [], ["get"]⟩ : PolicyRule).resources "" := by
  refine expand_retightens_apiGroups.1 inventoryPodsCore
    [⟨["*"], ["pods"], [], [], ["get"]⟩] ⟨[""], ["pods"], [], [], ["get"]⟩ ?_ "" ?_
  · rw [expand_retightens_apiGroups.2]
    exact List.mem_singleton.mpr rfl
  · decide

/-! ## Claim C5: DynamicClusterRole deletion reconcile vs teardown -/

/-- Identifying metadata of a `DynamicClusterRole` source, as read by the
ownership-annotation builders of part_003. -/
structure DynamicClusterRoleMeta where
  apiVersion : String
  kind : String
  name : String
  nsName : String
  deriving DecidableEq

/-- The four ownership annotations stamped by `SyncTarget` and consulted by
`DeleteTargets` (part_003 lines 613-618 and 667-672). -/
def clusterRoleOwnerAnnotations (m : DynamicClusterRoleMeta) :
    List (String × String) :=
  [("kuberbac.prosimcorp.com/owner-apiversion", m.apiVersion),
   ("kuberbac.prosimcorp.com/owner-kind", m.kind),
   ("kuberbac.prosimcorp.com/owner-name", m.name),
   ("kuberbac.prosimcorp.com/owner-namespace", m.nsName)]

/-- A cluster role as seen by `DeleteTargets`: its name and annotations. -/
structure ClusterRoleObj where
  name : String
  annotations : List (String × String)
  deriving DecidableEq

/-- Embedding of `DeleteTargets` (part_003 lines 662-692): names of the
cluster roles whose annotations contain the ownership annotations as a
subset — the set a teardown pass deletes. -/
def DeleteTargetsClusterRoles (m : DynamicClusterRoleMeta)
    (clusterRoles : List ClusterRoleObj) : List String :=
  (clusterRoles.filter
    (fun cr => IsSubset (clusterRoleOwnerAnnotations m) cr.annotations)).map
    ClusterRoleObj.name

/-- Operations a reconcile pass can issue against the cluster. -/
inductive ReconcileOp where
  | deleteClusterRole (name : String)
  | removeFinalizer
  deriving DecidableEq

/-- Embedding of the deletion-timestamp branch of
`DynamicClusterRoleReconciler.Reconcile`
(src/internal/controller/dynamicclusterrole_controller.go lines 77-89): when
the deletion timestamp is set, the reconciler removes the finalizer when it
is present and returns — it calls nothing else (in particular it never calls
`DeleteTargets`). -/
def DynamicClusterRoleDeletionReconcile (hasFinalizer : Bool) : List ReconcileOp :=
  if hasFinalizer then [ReconcileOp.removeFinalizer] else []

/-- Sample source metadata for the C5 evaluation. -/
def sampleClusterRoleOwner : DynamicClusterRoleMeta :=
  ⟨"kuberbac.prosimcorp.com/v1alpha1", "DynamicClusterRole", "example-policy", ""⟩

/-- **C5 (code bug).** On a `DynamicClusterRole` with deletion timestamp set
and the finalizer present, the reconcile deletion branch issues only the
finalizer removal and never a cluster-role deletion, even though an owned
cluster role exists that `DeleteTargets` (the teardown the claim describes,
present in the source but never invoked on this path) would delete.  The
sibling `DynamicRoleBindingReconciler.Reconcile` does invoke its
`DeleteTargets` at the same spot, which marks the omission as a slip. -/
theorem clusterRole_deletion_reconcile_skips_teardown :
    DynamicClusterRoleDeletionReconcile true = [ReconcileOp.removeFinalizer] ∧
    (∀ op ∈ DynamicClusterRoleDeletionReconcile true,
        ∀ n, op ≠ ReconcileOp.deleteClusterRole n) ∧
    DeleteTargetsClusterRoles sampleClusterRoleOwner
      [⟨"owned-role", clusterRoleOwnerAnnotations sampleClusterRoleOwner⟩] =
      ["owned-role"] := by
  refine ⟨rfl, ?_, by decide⟩
  intro op hop n
  simp only [DynamicClusterRoleDeletionReconcile, if_true, List.mem_singleton] at hop
  subst hop
  exact fun h => ReconcileOp.noConfusion h

/-! ## Claim C6: SplitPolicyRules on nonResourceURL rules -/

/-- **C6 (code bug).** A compiled atomic `nonResourceURLs` rule has an empty
`apiGroups` slice, so `SplitPolicyRules` evaluates `policyRule.APIGroups[0]`
on an empty slice and panics (embedded as `none`) instead of placing the
rule in the cluster-scoped partition.  Evaluated on the compiled form of
`allow = [{nonResourceURLs: ["/api"], verbs: ["get"]}]`. -/
theorem splitPolicyRules_panics_on_nonResourceURL_rules :
    ((CompilePolicyRules inventoryPodsCore [⟨[], [], [], ["/api"], ["get"]⟩] []).map
        Prod.snd) = [⟨[], [], [], ["/api"], ["get"]⟩] ∧
    SplitPolicyRules inventoryPodsCore
      ((CompilePolicyRules inventoryPodsCore [⟨[], [], [], ["/api"], ["get"]⟩] []).map
        Prod.snd) = none := by
  exact ⟨by decide, by decide⟩

/-! ## Claim C2: the name-scoped deny special case -/

theorem string_data_inj {s t : String} (h : s.data = t.data) : s = t := by
  cases s
  cases t
  congr

theorem string_append_right_ne {a n : String} (h : n ≠ "") : a ++ n ≠ a := by
  intro he
  apply h
  have hd := congrArg String.data he
  rw [String.data_append] at hd
  have h2 : a.data ++ n.data = a.data ++ [] := by simpa using hd
  have h3 : n.data = [] := List.append_cancel_left h2
  exact string_data_inj (by simp [h3])

theorem string_append_left_cancel {a n m : String} (h : a ++ n = a ++ m) : n = m := by
  have hd := congrArg String.data h
  rw [String.data_append, String.data_append] at hd
  exact string_data_inj (List.append_cancel_left hd)

theorem ainsert_eq_append_of_none {α : Type} (m : List (String × α)) (k : String)
    (v : α) (h : alookup m k = none) : ainsert m k v = m ++ [(k, v)] := by
  induction m with
  | nil => rfl
  | cons hd tl ih =>
      obtain ⟨k0, v0⟩ := hd
      simp only [alookup] at h
      by_cases h0 : k0 = k
      · rw [if_pos h0] at h
        exact Option.noConfusion h
      · rw [if_neg h0] at h
        simp [ainsert, h0, ih h]

theorem alookup_append {α : Type} (m m2 : List (String × α)) (k : String) :
    alookup (m ++ m2) k =
      match alookup m k with
      | some v => some v
      | none => alookup m2 k := by
  induction m with
  | nil => simp [alookup]
  | cons hd tl ih =>
      obtain ⟨k0, v0⟩ := hd
      by_cases h0 : k0 = k
      · simp [alookup, h0]
      · simp [alookup, h0, ih]

theorem alookup_map_keyed {α : Type} (bk : String) (f : String → α) :
    ∀ (ns : List String) (n0 : String), ns.Nodup → n0 ∈ ns →
      alookup (ns.map (fun n => (bk ++ n, f n))) (bk ++ n0) = some (f n0) := by
  intro ns
  induction ns with
  | nil => intro n0 _ h; exact absurd h (List.not_mem_nil n0)
  | cons n rest ih =>
      intro n0 hnd hmem
      simp only [List.nodup_cons] at hnd
      by_cases h0 : n = n0
      · subst h0
        simp [alookup]
      · have hne : bk ++ n ≠ bk ++ n0 := fun he => h0 (string_append_left_cancel he)
        simp only [List.map_cons, alookup, if_neg hne]
        rcases List.mem_cons.mp hmem with h1 | h1
        · exact absurd h1.symm h0
        · exact ih n0 hnd.2 h1

theorem alookup_map_keyed_none {α : Type} (bk : String) (f : String → α)
    (k : String) :
    ∀ ns : List String, (∀ n ∈ ns, bk ++ n ≠ k) →
      alookup (ns.map (fun n => (bk ++ n, f n))) k = none := by
  intro ns
  induction ns with
  | nil => intro _; rfl
  | cons n rest ih =>
      intro h
      simp only [List.map_cons, alookup, if_neg (h n (List.mem_cons_self _ _))]
      exact ih (fun n1 h1 => h n1 (List.mem_cons_of_mem _ h1))

theorem specialFold_eq (bk : String) (broad : PolicyRule) :
    ∀ (ns : List String) (tail : RuleMap), ns.Nodup →
      (∀ n ∈ ns, alookup ((bk, broad) :: tail) (bk ++ n) = none) →
      (ns.foldl (fun m n =>
          ainsert m (bk ++ n)
            (perInstanceAllow ((alookup m bk).getD emptyPolicyRule) n))
        ((bk, broad) :: tail)) =
      (bk, broad) :: (tail ++ ns.map (fun n => (bk ++ n, perInstanceAllow broad n))) := by
  intro ns
  induction ns with
  | nil => intro tail _ _; simp
  | cons n rest ih =>
      intro tail hnd hfresh
      simp only [List.nodup_cons] at hnd
      simp only [List.foldl_cons]
      have hbk : alookup ((bk, broad) :: tail) bk = some broad := by simp [alookup]
      have hfr : alookup ((bk, broad) :: tail) (bk ++ n) = none :=
        hfresh n (List.mem_cons_self _ _)
      rw [hbk]
      rw [show ((some broad).getD emptyPolicyRule) = broad from rfl]
      rw [ainsert_eq_append_of_none _ _ _ hfr]
      have hstep : ((bk, broad) :: tail) ++ [(bk ++ n, perInstanceAllow broad n)] =
          (bk, broad) :: (tail ++ [(bk ++ n, perInstanceAllow broad n)]) := by simp
      rw [hstep]
      rw [ih (tail ++ [(bk ++ n, perInstanceAllow broad n)]) hnd.2 ?_]
      · simp
      · intro n1 h1
        have h2 := hfresh n1 (List.mem_cons_of_mem _ h1)
        simp only [alookup] at h2 ⊢
        by_cases hb : bk = bk ++ n1
        · rw [if_pos hb] at h2
          exact Option.noConfusion h2
        · rw [if_neg hb] at h2 ⊢
          rw [alookup_append, h2]
          have hne : bk ++ n ≠ bk ++ n1 := fun he =>
            hnd.1 (string_append_left_cancel he ▸ h1)
          simp [alookup, hne]

/-- **C2.** For a deny key `g#r#NAME` (NAME non-empty) whose broad
counterpart `g#r#` is the allow map's single entry, `EvaluateSpecialCases`
replaces the broad allow with one per-instance allow per live instance
(keyed `g#r#instanceName` with the broad verbs) and deletes the broad key;
after `EvaluatePolicyRules`, the denied instance's allow carries the broad
verbs minus the deny verbs (the entry disappearing when that difference is
empty), and every other instance retains the broad allow's full verbs. -/
theorem name_scoped_deny_special_case
    (p : PolicyRulesProcessor) (g r NAME bk dk : String)
    (broadRule denyRule : PolicyRule) (instances : List String)
    (hbk : bk = g ++ "#" ++ r ++ "#") (hdk : dk = bk ++ NAME)
    (hparts : splitOnChar '#' dk = [g, r, NAME]) (hNAME : NAME ≠ "")
    (hurl : strStartsWith dk "nonresourceurl" = false)
    (hnd : instances.Nodup) (hne : ∀ n ∈ instances, n ≠ "")
    (hmem : NAME ∈ instances)
    (hins : p.listInstances (resolveDenyGvkr p denyRule) = instances) :
    EvaluateSpecialCases p [(bk, broadRule)] [(dk, denyRule)] =
        instances.map (fun n => (bk ++ n, perInstanceAllow broadRule n)) ∧
    alookup (EvaluatePolicyRules
        (instances.map (fun n => (bk ++ n, perInstanceAllow broadRule n)))
        [(dk, denyRule)]) bk = none ∧
    (∀ n ∈ instances, n ≠ NAME →
        alookup (EvaluatePolicyRules
          (instances.map (fun n => (bk ++ n, perInstanceAllow broadRule n)))
          [(dk, denyRule)]) (bk ++ n) = some (perInstanceAllow broadRule n)) ∧
    (GetSurvivingVerbs broadRule.verbs denyRule.verbs = [] →
        alookup (EvaluatePolicyRules
          (instances.map (fun n => (bk ++ n, perInstanceAllow broadRule n)))
          [(dk, denyRule)]) dk = none) ∧
    (GetSurvivingVerbs broadRule.verbs denyRule.verbs ≠ [] →
        alookup (EvaluatePolicyRules
          (instances.map (fun n => (bk ++ n, perInstanceAllow broadRule n)))
          [(dk, denyRule)]) dk = some
          { apiGroups := broadRule.apiGroups, resources := broadRule.resources
            resourceNames := [NAME], nonResourceURLs := []
            verbs := GetSurvivingVerbs broadRule.verbs denyRule.verbs }) := by
  have hbkne : ∀ n, n ≠ "" → bk ++ n ≠ bk := fun n hn => string_append_right_ne hn
  have hget2 : ([g, r, NAME].getD 2 "") = NAME := rfl
  have hcond : ([g, r, NAME].getD 2 "") ≠ "" := by
    rw [hget2]
    exact hNAME
  have hstage1 : EvaluateSpecialCases p [(bk, broadRule)] [(dk, denyRule)] =
      instances.map (fun n => (bk ++ n, perInstanceAllow broadRule n)) := by
    show specialCaseStep p [(bk, broadRule)] dk denyRule = _
    unfold specialCaseStep
    simp only [hurl, Bool.false_eq_true, if_false, hparts]
    rw [if_neg hcond]
    have hkey : joinHash ([g, r, NAME].take 2) ++ "#" = bk := by
      simp [joinHash, hbk]
    rw [hkey]
    have hlook : alookup [(bk, broadRule)] bk = some broadRule := by simp [alookup]
    rw [hlook]
    simp only [Option.isSome_some, if_true]
    rw [hins]
    have hfresh0 : ∀ n ∈ instances, alookup [(bk, broadRule)] (bk ++ n) = none := by
      intro n hn
      simp only [alookup]
      rw [if_neg (fun hb => hbkne n (hne n hn) hb.symm)]
    have hfold := specialFold_eq bk broadRule instances [] hnd hfresh0
    rw [hfold]
    simp only [List.nil_append]
    unfold aerase
    rw [List.filter_cons]
    have hhead : (decide ((bk, broadRule).1 ≠ bk)) = false := by simp
    rw [hhead]
    simp only [Bool.false_eq_true, if_false]
    apply List.filter_eq_self.mpr
    intro e he
    rcases List.mem_map.mp he with ⟨n, hn, hen⟩
    subst hen
    simpa using hbkne n (hne n hn)
  refine ⟨hstage1, ?_⟩
  set m1 := instances.map (fun n => (bk ++ n, perInstanceAllow broadRule n)) with hm1
  have heval : EvaluatePolicyRules m1 [(dk, denyRule)] = evalDenyEntry m1 dk denyRule := rfl
  have hlookNAME : alookup m1 dk = some (perInstanceAllow broadRule NAME) := by
    rw [hm1, hdk]
    exact alookup_map_keyed bk _ instances NAME hnd hmem
  have hsub : evalDenyEntry m1 dk denyRule = subtractAtKey m1 dk denyRule.verbs := by
    unfold evalDenyEntry
    simp only [hurl, Bool.false_eq_true, if_false, hparts]
    rw [if_neg hcond]
    rw [hlookNAME]
    simp
  rw [heval, hsub]
  have hfinal : subtractAtKey m1 dk denyRule.verbs =
      (if GetSurvivingVerbs broadRule.verbs denyRule.verbs = []
       then aerase (ainsert m1 dk
         { apiGroups := broadRule.apiGroups, resources := broadRule.resources
           resourceNames := [NAME], nonResourceURLs := []
           verbs := GetSurvivingVerbs broadRule.verbs denyRule.verbs }) dk
       else ainsert m1 dk
         { apiGroups := broadRule.apiGroups, resources := broadRule.resources
           resourceNames := [NAME], nonResourceURLs := []
           verbs := GetSurvivingVerbs broadRule.verbs denyRule.verbs }) := by
    unfold subtractAtKey
    rw [hlookNAME]
    simp only [Option.getD_some, perInstanceAllow]
    rw [alookup_ainsert_self]
    rfl
  rw [hfinal]
  have hdkbk : dk ≠ bk := by
    rw [hdk]
    exact hbkne NAME hNAME
  have hdkother : ∀ n ∈ instances, n ≠ NAME → dk ≠ bk ++ n := by
    intro n hn hnNAME he
    rw [hdk] at he
    exact hnNAME (string_append_left_cancel he).symm
  have hm1bk : alookup m1 bk = none := by
    rw [hm1]
    exact alookup_map_keyed_none bk _ bk instances
      (fun n hn => hbkne n (hne n hn))
  have hm1other : ∀ n ∈ instances, alookup m1 (bk ++ n) =
      some (perInstanceAllow broadRule n) := by
    intro n hn
    rw [hm1]
    exact alookup_map_keyed bk _ instances n hnd hn
  by_cases hcase : GetSurvivingVerbs broadRule.verbs denyRule.verbs = []
  · rw [if_pos hcase]
    refine ⟨?_, ?_, ?_, ?_⟩
    · rw [alookup_aerase_ne _ _ _ hdkbk, alookup_ainsert_ne _ _ _ _ hdkbk]
      exact hm1bk
    · intro n hn hnNAME
      rw [alookup_aerase_ne _ _ _ (hdkother n hn hnNAME),
        alookup_ainsert_ne _ _ _ _ (hdkother n hn hnNAME)]
      exact hm1other n hn
    · intro _
      exact alookup_aerase_self _ dk
    · intro hcontra
      exact absurd hcase hcontra
  · rw [if_neg hcase]
    refine ⟨?_, ?_, ?_, ?_⟩
    · rw [alookup_ainsert_ne _ _ _ _ hdkbk]
      exact hm1bk
    · intro n hn hnNAME
      rw [alookup_ainsert_ne _ _ _ _ (hdkother n hn hnNAME)]
      exact hm1other n hn
    · intro hcontra
      exact absurd hcontra hcase
    · intro _
      exact alookup_ainsert_self _ _ _

/-- Discovery record of the core-group `configmaps` resource. -/
def configmapsGVKR : GVKR := ⟨"", "v1", "ConfigMap", "configmaps", "", true, []⟩

/-- Inventory with `configmaps` in the core group and three live instances
`a`, `b`, `c`. -/
def inventoryConfigmaps : PolicyRulesProcessor :=
  { resourcesByGroup := [("", [configmapsGVKR])]
    resourceList := BuildResourceList [("", [configmapsGVKR])]
    listInstances := fun _ => ["a", "b", "c"] }

/-- The broad allow of the spec's name-scoped-deny test: all configmaps, all
verbs. -/
def cmBroadAllow : PolicyRule := ⟨[""], ["configmaps"], [], [], canonicalVerbs⟩

/-- The name-scoped deny of the spec's test: `configmaps` named `a`, verb
`delete`. -/
def cmNameDeny : PolicyRule := ⟨[""], ["configmaps"], ["a"], [], ["delete"]⟩

/-- Witness for C2 at the spec's test scenario: after the special case and
the evaluation, the undenied instance `b` keeps the broad allow's full
verbs. -/
theorem name_scoped_deny_special_case_witness :
    alookup (EvaluatePolicyRules
        ((["a", "b", "c"]).map
          (fun n => ("#configmaps#" ++ n, perInstanceAllow cmBroadAllow n)))
        [("#configmaps#a", cmNameDeny)]) ("#configmaps#" ++ "b") =
      some (perInstanceAllow cmBroadAllow "b") :=
  (name_scoped_deny_special_case inventoryConfigmaps "" "configmaps" "a"
    "#configmaps#" "#configmaps#a" cmBroadAllow cmNameDeny ["a", "b", "c"]
    (by decide) (by decide) (by decide) (by decide) (by decide) (by decide)
    (by decide) (by decide) (by decide)).2.2.1 "b" (by decide) (by decide)

/-! ## Data model of the binding synthesizer (part_004, first file) -/

/-- Embedding of `MatchRegexT` (api/v1alpha1). -/
structure MatchRegexT where
  negative : Bool
  expression : String
  deriving DecidableEq

/-- `reflect.ValueOf(r).IsZero()` on a `MatchRegexT`. -/
def MatchRegexT.isZero (r : MatchRegexT) : Bool :=
  decide (r.negative = false ∧ r.expression = "")

/-- Embedding of `MetaSelectorT`; Go nil maps are empty lists. -/
structure MetaSelectorT where
  matchLabels : List (String × String)
  matchAnnotations : List (String × String)
  deriving DecidableEq

/-- `reflect.ValueOf(s).IsZero()` on a `MetaSelectorT`. -/
def MetaSelectorT.isZero (s : MetaSelectorT) : Bool :=
  decide (s.matchLabels = [] ∧ s.matchAnnotations = [])

/-- Embedding of `NameSelectorT`. -/
structure NameSelectorT where
  matchList : List String
  matchRegex : MatchRegexT
  deriving DecidableEq

/-- `reflect.ValueOf(s).IsZero()` on a `NameSelectorT`. -/
def NameSelectorT.isZero (s : NameSelectorT) : Bool :=
  decide (s.matchList = [] ∧ s.matchRegex.isZero = true)

/-- Embedding of `NamespaceSelectorT`. -/
structure NamespaceSelectorT where
  matchLabels : List (String × String)
  matchList : List String
  matchRegex : MatchRegexT
  deriving DecidableEq

/-- `reflect.ValueOf(s).IsZero()` on a `NamespaceSelectorT`. -/
def NamespaceSelectorT.isZero (s : NamespaceSelectorT) : Bool :=
  decide (s.matchLabels = [] ∧ s.matchList = [] ∧ s.matchRegex.isZero = true)

/-- Embedding of `DynamicRoleBindingSourceSubject`. -/
structure DynamicRoleBindingSourceSubject where
  apiGroup : String
  kind : String
  metaSelector : MetaSelectorT
  nameSelector : NameSelectorT
  namespaceSelector : NamespaceSelectorT
  deriving DecidableEq

/-- Embedding of `DynamicRoleBindingSource`. -/
structure DynamicRoleBindingSource where
  clusterRole : String
  subject : DynamicRoleBindingSourceSubject
  deriving DecidableEq

/-- Embedding of `DynamicRoleBindingTargets`. -/
structure DynamicRoleBindingTargets where
  name : String
  annotations : List (String × String)
  labels : List (String × String)
  clusterScoped : Bool
  namespaceSelector : NamespaceSelectorT
  deriving DecidableEq

/-- Embedding of `DynamicRoleBindingSpec` (the synchronization field does
not influence the synthesizer). -/
structure DynamicRoleBindingSpec where
  source : DynamicRoleBindingSource
  targets : DynamicRoleBindingTargets
  deriving DecidableEq

/-- A `DynamicRoleBinding` source CR: TypeMeta/ObjectMeta fields read by the
synthesizer plus the spec. -/
structure DynamicRoleBinding where
  apiVersion : String
  kind : String
  name : String
  nsName : String
  spec : DynamicRoleBindingSpec
  deriving DecidableEq

/-- A namespace as seen through the client: name and labels. -/
structure NamespaceObj where
  name : String
  labels : List (String × String)
  deriving DecidableEq

/-- A service account: name, namespace, labels, annotations. -/
structure ServiceAccountObj where
  name : String
  nsName : String
  labels : List (String × String)
  annotations : List (String × String)
  deriving DecidableEq

/-- A role binding as consulted by upsert and reaping: name, namespace,
annotations. -/
structure RoleBindingObj where
  name : String
  nsName : String
  annotations : List (String × String)
  deriving DecidableEq

/-- A cluster role binding: name and annotations. -/
structure ClusterRoleBindingObj where
  name : String
  annotations : List (String × String)
  deriving DecidableEq

/-- The cluster as the synthesizer's client sees it. -/
structure ClusterState where
  namespaces : List NamespaceObj
  serviceAccounts : List ServiceAccountObj
  roleBindings : List RoleBindingObj
  clusterRoleBindings : List ClusterRoleBindingObj

/-- Go's `regexp` engine abstracted: which expressions compile, and what a
compiled (or zero) regexp matches.  The zero-`Regexp` match performed when
no selector branch is populated is routed through `isMatch ""`. -/
structure RegexEngine where
  valid : String → Bool
  isMatch : String → String → Bool

/-- An `rbacv1.Subject` produced by subject expansion. -/
structure RbacSubject where
  kind : String
  apiGroup : String
  name : String
  nsName : String
  deriving DecidableEq

/-- The ownership annotations of a `DynamicRoleBinding` source
(part_004 lines 352-357). -/
def referenceAnnotationsOf (cr : DynamicRoleBinding) : List (String × String) :=
  [("kuberbac.prosimcorp.com/owner-apiversion", cr.apiVersion),
   ("kuberbac.prosimcorp.com/owner-kind", cr.kind),
   ("kuberbac.prosimcorp.com/owner-name", cr.name),
   ("kuberbac.prosimcorp.com/owner-namespace", cr.nsName)]

/-- `maps.Copy dst src`: every binding of `src` written into `dst`. -/
def mapsCopy (dst src : List (String × String)) : List (String × String) :=
  src.foldl (fun d kv => ainsert d kv.1 kv.2) dst

/-! ## Selector checks and namespace filtering (part_004 lines 50-180) -/

/-- Embedding of `CheckMetaSelector`: true when exactly one field is filled. -/
def CheckMetaSelector (s : MetaSelectorT) : Bool :=
  decide (((if s.matchLabels ≠ [] then 1 else 0) +
    (if s.matchAnnotations ≠ [] then 1 else 0) : Nat) = 1)

/-- Embedding of `CheckNameSelector`: true when exactly one field is filled. -/
def CheckNameSelector (s : NameSelectorT) : Bool :=
  decide (((if s.matchList ≠ [] then 1 else 0) +
    (if s.matchRegex.expression ≠ "" then 1 else 0) : Nat) = 1)

/-- Embedding of `CheckNamespaceSelector`: true when exactly one field is
filled. -/
def CheckNamespaceSelector (s : NamespaceSelectorT) : Bool :=
  decide (((if s.matchLabels ≠ [] then 1 else 0) +
    (if s.matchList ≠ [] then 1 else 0) +
    (if s.matchRegex.expression ≠ "" then 1 else 0) : Nat) = 1)

/-- Embedding of `FilterNamespaceListBySelector` (part_004 lines 117-180):
a zero selector returns every namespace name; otherwise the selector must
have exactly one populated branch and each namespace is matched against it. -/
def FilterNamespaceListBySelector (re : RegexEngine) (namespaceList : List NamespaceObj)
    (sel : NamespaceSelectorT) : Except String (List String) :=
  if sel.isZero then .ok (namespaceList.map NamespaceObj.name)
  else if ¬ (CheckNamespaceSelector sel = true) then
    .error "only one of the following fields is allowed as namespaceSelector"
  else if sel.matchRegex.expression ≠ "" ∧ ¬ (re.valid sel.matchRegex.expression = true) then
    .error "invalid regex"
  else
    .ok (namespaceList.foldl (fun acc ns =>
      let acc := if sel.matchLabels ≠ [] ∧ IsSubset sel.matchLabels ns.labels = true
        then acc ++ [ns.name] else acc
      let acc := if sel.matchList ≠ [] ∧ ns.name ∈ sel.matchList
        then acc ++ [ns.name] else acc
      if sel.matchRegex.expression ≠ "" then
        let m := re.isMatch sel.matchRegex.expression ns.name
        if (¬ m = true ∧ sel.matchRegex.negative = true) ∨
           (m = true ∧ ¬ sel.matchRegex.negative = true)
        then acc ++ [ns.name] else acc
      else acc) [])

/-! ## GetServiceAccountsBySelectors (part_004 lines 183-269) -/

/-- The per-service-account filter body of `GetServiceAccountsBySelectors`:
namespace restriction (skipped when the filtered list is empty), then
labels, annotations, name list, or regex. -/
def serviceAccountStep (re : RegexEngine) (filteredNamespaceList : List String)
    (subject : DynamicRoleBindingSourceSubject) (acc : List ServiceAccountObj)
    (sa : ServiceAccountObj) : List ServiceAccountObj :=
  if filteredNamespaceList ≠ [] ∧ sa.nsName ∉ filteredNamespaceList then acc
  else if subject.metaSelector.matchLabels ≠ [] then
    if IsSubset subject.metaSelector.matchLabels sa.labels = true then acc ++ [sa] else acc
  else if subject.metaSelector.matchAnnotations ≠ [] then
    if IsSubset subject.metaSelector.matchAnnotations sa.annotations = true
    then acc ++ [sa] else acc
  else if subject.nameSelector.matchList ≠ [] then
    if sa.name ∈ subject.nameSelector.matchList then acc ++ [sa] else acc
  else
    let m := re.isMatch subject.nameSelector.matchRegex.expression sa.name
    if (¬ m = true ∧ subject.nameSelector.matchRegex.negative = true) ∨
       (m = true ∧ ¬ subject.nameSelector.matchRegex.negative = true)
    then acc ++ [sa] else acc

/-- Embedding of `GetServiceAccountsBySelectors`: validations, regex
compilation, then the filter loop over every service account of the
cluster. -/
def GetServiceAccountsBySelectors (re : RegexEngine)
    (allServiceAccounts : List ServiceAccountObj)
    (filteredNamespaceList : List String)
    (subject : DynamicRoleBindingSourceSubject) :
    Except String (List ServiceAccountObj) :=
  if ¬ subject.nameSelector.isZero = true ∧ ¬ subject.metaSelector.isZero = true then
    .error "nameSelector and labelSelector are mutually exclusive"
  else if ¬ subject.metaSelector.isZero = true ∧ ¬ CheckMetaSelector subject.metaSelector = true then
    .error "only one of the following fields is allowed as metaSelector"
  else if ¬ subject.nameSelector.isZero = true ∧ ¬ CheckNameSelector subject.nameSelector = true then
    .error "only one of the following fields is allowed as nameSelector"
  else if subject.nameSelector.matchRegex.expression ≠ "" ∧
      ¬ (re.valid subject.nameSelector.matchRegex.expression = true) then
    .error "invalid regex"
  else
    .ok (allServiceAccounts.foldl (serviceAccountStep re filteredNamespaceList subject) [])

/-! ## SyncTarget of DynamicRoleBindingReconciler (part_004 lines 272-484) -/

/-- The write and delete requests `SyncTarget` issues, identified by target
name and namespace. -/
inductive BindingOp where
  | updateClusterRoleBinding (name : String)
  | updateRoleBinding (name nsName : String)
  | deleteRoleBinding (name nsName : String)
  deriving DecidableEq

/-- Subject expansion of `SyncTarget` (part_004 lines 274-349): kind
validation, the Group/User selector restrictions, the source namespace
filter, then one subject per name-list entry (User/Group) or per selected
service account. -/
def ExpandSubjects (re : RegexEngine) (st : ClusterState) (cr : DynamicRoleBinding) :
    Except String (List RbacSubject) :=
  let subject := cr.spec.source.subject
  if subject.kind ∉ ["ServiceAccount", "User", "Group"] then
    .error "source.subject.kind must be one of the following values"
  else if subject.kind ∈ ["Group", "User"] ∧
      (¬ subject.namespaceSelector.isZero = true ∨ ¬ subject.metaSelector.isZero = true) then
    .error "namespaceSelector and labelSelector are only allowed for ServiceAccount subjects"
  else
    match FilterNamespaceListBySelector re st.namespaces subject.namespaceSelector with
    | .error e => .error e
    | .ok subjectFilteredNamespaces =>
      if subject.kind ∈ ["Group", "User"] then
        if ¬ subject.nameSelector.matchRegex.isZero = true then
          .error "MatchRegex nameSelector is not allowed for subjects: Group, User"
        else if subject.nameSelector.matchList = [] then
          .error "MatchList nameSelector is required for subjects: Group, User"
        else
          .ok (subject.nameSelector.matchList.map
            (fun n => ⟨subject.kind, subject.apiGroup, n, ""⟩))
      else if subject.kind = "ServiceAccount" then
        match GetServiceAccountsBySelectors re st.serviceAccounts
            subjectFilteredNamespaces subject with
        | .error e => .error e
        | .ok sas =>
            .ok (sas.map (fun sa => ⟨"ServiceAccount", subject.apiGroup, sa.name, sa.nsName⟩))
      else .ok []

/-- Embedding of `DynamicRoleBindingReconciler.SyncTarget`: subject
expansion, then either the guarded cluster-role-binding update or the
role-binding upserts over the target namespaces followed by orphan
reaping.  The result lists the issued write/delete requests in order. -/
def DynamicRoleBindingSyncTarget (re : RegexEngine) (st : ClusterState)
    (cr : DynamicRoleBinding) : Except String (List BindingOp) :=
  match ExpandSubjects re st cr with
  | .error e => .error e
  | .ok _expandedSubjects =>
    let refAnns := referenceAnnotationsOf cr
    let mergedAnns := mapsCopy cr.spec.targets.annotations refAnns
    if cr.spec.targets.clusterScoped then
      match st.clusterRoleBindings.find?
          (fun crb => decide (crb.name = cr.spec.targets.name)) with
      | some existing =>
          if ¬ IsSubset refAnns existing.annotations = true then .ok []
          else .ok [BindingOp.updateClusterRoleBinding cr.spec.targets.name]
      | none => .ok [BindingOp.updateClusterRoleBinding cr.spec.targets.name]
    else
      match FilterNamespaceListBySelector re st.namespaces
          cr.spec.targets.namespaceSelector with
      | .error e => .error e
      | .ok targetFilteredNamespaces =>
        let upserts := targetFilteredNamespaces.foldl (fun acc ns =>
          let roleBindingFound := st.roleBindings.any (fun rb =>
            decide (rb.nsName = ns ∧ rb.name = cr.spec.targets.name ∧
              ¬ IsSubset mergedAnns rb.annotations = true))
          if roleBindingFound then acc
          else acc ++ [BindingOp.updateRoleBinding cr.spec.targets.name ns]) []
        let complementary := (st.namespaces.filter
          (fun n => decide (n.name ∉ targetFilteredNamespaces))).map NamespaceObj.name
        let deletes := st.roleBindings.foldl (fun acc rb =>
          if IsSubset refAnns rb.annotations = true ∧ rb.nsName ∈ complementary
          then acc ++ [BindingOp.deleteRoleBinding rb.name rb.nsName] else acc) []
        .ok (upserts ++ deletes)

/-! ## Fold lemmas for the synthesizer -/

theorem mem_reapFold (refAnns : List (String × String)) (compl : List String) :
    ∀ (rbs : List RoleBindingObj) (acc : List BindingOp) (op : BindingOp),
      (op ∈ rbs.foldl (fun acc rb =>
        if IsSubset refAnns rb.annotations = true ∧ rb.nsName ∈ compl
        then acc ++ [BindingOp.deleteRoleBinding rb.name rb.nsName] else acc) acc) ↔
      (op ∈ acc ∨ ∃ rb ∈ rbs, IsSubset refAnns rb.annotations = true ∧
        rb.nsName ∈ compl ∧ op = BindingOp.deleteRoleBinding rb.name rb.nsName) := by
  intro rbs
  induction rbs with
  | nil => intro acc op; simp
  | cons rb rest ih =>
      intro acc op
      simp only [List.foldl_cons]
      by_cases hP : IsSubset refAnns rb.annotations = true ∧ rb.nsName ∈ compl
      · rw [if_pos hP, ih]
        constructor
        · rintro (h1 | ⟨rb1, hm1, h3, h4, h5⟩)
          · rcases List.mem_append.mp h1 with h2 | h2
            · exact Or.inl h2
            · simp only [List.mem_singleton] at h2
              exact Or.inr ⟨rb, List.mem_cons_self _ _, hP.1, hP.2, h2⟩
          · exact Or.inr ⟨rb1, List.mem_cons_of_mem _ hm1, h3, h4, h5⟩
        · rintro (h1 | ⟨rb1, hm1, h3, h4, h5⟩)
          · exact Or.inl (List.mem_append_left _ h1)
          · rcases List.mem_cons.mp hm1 with h6 | h6
            · subst h6
              exact Or.inl (List.mem_append_right _ (by simp [h5]))
            · exact Or.inr ⟨rb1, h6, h3, h4, h5⟩
      · rw [if_neg hP, ih]
        constructor
        · rintro (h1 | ⟨rb1, hm1, h3, h4, h5⟩)
          · exact Or.inl h1
          · exact Or.inr ⟨rb1, List.mem_cons_of_mem _ hm1, h3, h4, h5⟩
        · rintro (h1 | ⟨rb1, hm1, h3, h4, h5⟩)
          · exact Or.inl h1
          · rcases List.mem_cons.mp hm1 with h6 | h6
            · subst h6
              exact absurd ⟨h3, h4⟩ hP
            · exact Or.inr ⟨rb1, h6, h3, h4, h5⟩

theorem upsertFold_only_updates (rbs : List RoleBindingObj) (tname : String)
    (mergedAnns : List (String × String)) :
    ∀ (nss : List String) (acc : List BindingOp),
      (∀ op ∈ acc, ∃ nm ns, op = BindingOp.updateRoleBinding nm ns) →
      ∀ op ∈ nss.foldl (fun acc ns =>
          if (rbs.any (fun rb =>
            decide (rb.nsName = ns ∧ rb.name = tname ∧
              ¬ IsSubset mergedAnns rb.annotations = true))) = true then acc
          else acc ++ [BindingOp.updateRoleBinding tname ns]) acc,
        ∃ nm ns, op = BindingOp.updateRoleBinding nm ns := by
  intro nss
  induction nss with
  | nil => intro acc hacc op hop; exact hacc op hop
  | cons ns rest ih =>
      intro acc hacc op hop
      simp only [List.foldl_cons] at hop
      refine ih _ ?_ op hop
      intro op1 hop1
      by_cases hc : (rbs.any (fun rb =>
          decide (rb.nsName = ns ∧ rb.name = tname ∧
            ¬ IsSubset mergedAnns rb.annotations = true))) = true
      · rw [if_pos hc] at hop1
        exact hacc op1 hop1
      · rw [if_neg hc] at hop1
        rcases List.mem_append.mp hop1 with h1 | h1
        · exact hacc op1 h1
        · simp only [List.mem_singleton] at h1
          exact ⟨tname, ns, h1⟩

theorem upsertFold_acc_mono (rbs : List RoleBindingObj) (tname : String)
    (mergedAnns : List (String × String)) :
    ∀ (nss : List String) (acc : List BindingOp) (op : BindingOp),
      op ∈ acc →
      op ∈ nss.foldl (fun acc ns =>
          if (rbs.any (fun rb =>
            decide (rb.nsName = ns ∧ rb.name = tname ∧
              ¬ IsSubset mergedAnns rb.annotations = true))) = true then acc
          else acc ++ [BindingOp.updateRoleBinding tname ns]) acc := by
  intro nss
  induction nss with
  | nil => intro acc op h; exact h
  | cons ns rest ih =>
      intro acc op h
      simp only [List.foldl_cons]
      refine ih _ op ?_
      by_cases hc : (rbs.any (fun rb =>
          decide (rb.nsName = ns ∧ rb.name = tname ∧
            ¬ IsSubset mergedAnns rb.annotations = true))) = true
      · rw [if_pos hc]
        exact h
      · rw [if_neg hc]
        exact List.mem_append_left _ h

theorem mem_upsertFold_of_noskip (rbs : List RoleBindingObj) (tname : String)
    (mergedAnns : List (String × String))
    (hnoskip : ∀ rb ∈ rbs,
        ¬ (rb.name = tname ∧ ¬ IsSubset mergedAnns rb.annotations = true)) :
    ∀ (nss : List String) (acc : List BindingOp) (x : String), x ∈ nss →
      BindingOp.updateRoleBinding tname x ∈ nss.foldl (fun acc ns =>
          if (rbs.any (fun rb =>
            decide (rb.nsName = ns ∧ rb.name = tname ∧
              ¬ IsSubset mergedAnns rb.annotations = true))) = true then acc
          else acc ++ [BindingOp.updateRoleBinding tname ns]) acc := by
  have hany : ∀ ns : String, (rbs.any (fun rb =>
      decide (rb.nsName = ns ∧ rb.name = tname ∧
        ¬ IsSubset mergedAnns rb.annotations = true))) = false := by
    intro ns
    rw [List.any_eq_false]
    intro rb hrb
    simp only [decide_eq_true_eq]
    rintro ⟨_, h2, h3⟩
    exact hnoskip rb hrb ⟨h2, h3⟩
  intro nss
  induction nss with
  | nil => intro acc x h; exact absurd h (List.not_mem_nil x)
  | cons ns rest ih =>
      intro acc x h
      simp only [List.foldl_cons]
      rw [if_neg (by rw [hany ns]; exact Bool.false_ne_true)]
      rcases List.mem_cons.mp h with h1 | h1
      · subst h1
        exact upsertFold_acc_mono rbs tname mergedAnns rest _ _
          (List.mem_append_right _ (List.mem_singleton.mpr rfl))
      · exact ih _ x h1

/-! ## Claim C7: orphan reaping deletes exactly the owned bindings outside
the target namespace set -/

/-- **C7.** In a `DynamicRoleBinding` reconcile with `clusterScoped=false`,
a listed role binding owned by the source (annotations a superset of the
ownership annotations) whose namespace exists in the cluster is deleted
exactly when its namespace is not in the filtered target namespace set. -/
theorem orphan_reaping_deletes_exactly_outside_target_set
    (re : RegexEngine) (st : ClusterState) (cr : DynamicRoleBinding)
    (ops : List BindingOp) (targetNss : List String) (rb : RoleBindingObj)
    (hcs : cr.spec.targets.clusterScoped = false)
    (hok : DynamicRoleBindingSyncTarget re st cr = .ok ops)
    (hfil : FilterNamespaceListBySelector re st.namespaces
        cr.spec.targets.namespaceSelector = .ok targetNss)
    (hrb : rb ∈ st.roleBindings)
    (howned : IsSubset (referenceAnnotationsOf cr) rb.annotations = true)
    (hns : rb.nsName ∈ st.namespaces.map NamespaceObj.name) :
    BindingOp.deleteRoleBinding rb.name rb.nsName ∈ ops ↔ rb.nsName ∉ targetNss := by
  cases hexp : ExpandSubjects re st cr with
  | error e =>
      rw [DynamicRoleBindingSyncTarget, hexp] at hok
      exact absurd hok (by simp)
  | ok subs =>
      rw [DynamicRoleBindingSyncTarget, hexp] at hok
      simp only [hcs, Bool.false_eq_true, if_false, hfil] at hok
      rw [Except.ok.injEq] at hok
      subst hok
      constructor
      · intro hmem
        rcases List.mem_append.mp hmem with h1 | h1
        · exfalso
          rcases upsertFold_only_updates st.roleBindings cr.spec.targets.name
            (mapsCopy cr.spec.targets.annotations (referenceAnnotationsOf cr))
            targetNss [] (by intro op hop; exact absurd hop (List.not_mem_nil op))
            _ h1 with ⟨nm, ns1, heq⟩
          exact BindingOp.noConfusion heq
        · rcases (mem_reapFold (referenceAnnotationsOf cr) _ st.roleBindings [] _).mp h1
            with h2 | ⟨rb1, _, _, h5, h6⟩
          · exact absurd h2 (List.not_mem_nil _)
          · rw [BindingOp.deleteRoleBinding.injEq] at h6
            rw [← h6.2] at h5
            rcases List.mem_map.mp h5 with ⟨nsObj, hns1, hns2⟩
            have := List.of_mem_filter hns1
            rw [decide_eq_true_eq] at this
            rw [hns2] at this
            exact this
      · intro hout
        refine List.mem_append_right _ ?_
        refine (mem_reapFold (referenceAnnotationsOf cr) _ st.roleBindings [] _).mpr ?_
        refine Or.inr ⟨rb, hrb, howned, ?_, rfl⟩
        rcases List.mem_map.mp hns with ⟨nsObj, hns1, hns2⟩
        refine List.mem_map.mpr ⟨nsObj, ?_, hns2⟩
        refine List.mem_filter.mpr ⟨hns1, ?_⟩
        rw [decide_eq_true_eq, hns2]
        exact hout

/-! ## Concrete cluster states for the synthesizer witnesses -/

/-- A regex oracle where every expression compiles and nothing matches; the
concrete scenarios below use only list selectors, so it is never consulted. -/
def trivialRegexEngine : RegexEngine := ⟨fun _ => true, fun _ _ => false⟩

/-- The zero `MatchRegexT`. -/
def zeroMatchRegex : MatchRegexT := ⟨false, ""⟩

/-- The zero `MetaSelectorT`. -/
def zeroMetaSelector : MetaSelectorT := ⟨[], []⟩

/-- The zero `NamespaceSelectorT`. -/
def zeroNamespaceSelector : NamespaceSelectorT := ⟨[], [], zeroMatchRegex⟩

/-- A `User`-subject source for the synthesizer scenarios: one static member
`alice`, target binding named `x`. -/
def userBindingSource : DynamicRoleBindingSource :=
  ⟨"example-policy",
   ⟨"rbac.authorization.k8s.io", "User", zeroMetaSelector,
    ⟨["alice"], zeroMatchRegex⟩, zeroNamespaceSelector⟩⟩

/-- C7 scenario source CR: `clusterScoped=false`, target namespace selector
`matchList=["ns3"]`. -/
def reapingBinding : DynamicRoleBinding :=
  ⟨"kuberbac.prosimcorp.com/v1alpha1", "DynamicRoleBinding", "example", "default",
   ⟨userBindingSource, ⟨"x", [], [], false, ⟨[], ["ns3"], zeroMatchRegex⟩⟩⟩⟩

/-- The ownership annotations of the C7 scenario source. -/
def reapingOwnAnns : List (String × String) := referenceAnnotationsOf reapingBinding

/-- C7 scenario cluster: namespaces `ns3`, `ns4`; one owned binding in each
(the result of a previous reconcile against a selector matching both). -/
def reapingState : ClusterState :=
  ⟨[⟨"ns3", []⟩, ⟨"ns4", []⟩], [],
   [⟨"x", "ns3", reapingOwnAnns⟩, ⟨"x", "ns4", reapingOwnAnns⟩], []⟩

/-- Witness for C7: with the new target set `{ns3}`, the owned `ns4` binding
is deleted and the owned `ns3` binding is not. -/
theorem orphan_reaping_deletes_exactly_outside_target_set_witness :
    BindingOp.deleteRoleBinding "x" "ns4" ∈
      [BindingOp.updateRoleBinding "x" "ns3", BindingOp.deleteRoleBinding "x" "ns4"] ∧
    BindingOp.deleteRoleBinding "x" "ns3" ∉
      [BindingOp.updateRoleBinding "x" "ns3", BindingOp.deleteRoleBinding "x" "ns4"] := by
  constructor
  · exact (orphan_reaping_deletes_exactly_outside_target_set trivialRegexEngine
      reapingState reapingBinding
      [BindingOp.updateRoleBinding "x" "ns3", BindingOp.deleteRoleBinding "x" "ns4"]
      ["ns3"] ⟨"x", "ns4", reapingOwnAnns⟩ (by decide) (by decide) (by decide)
      (by decide) (by decide) (by decide)).mpr (by decide)
  · intro h
    exact absurd ((orphan_reaping_deletes_exactly_outside_target_set trivialRegexEngine
      reapingState reapingBinding
      [BindingOp.updateRoleBinding "x" "ns3", BindingOp.deleteRoleBinding "x" "ns4"]
      ["ns3"] ⟨"x", "ns3", reapingOwnAnns⟩ (by decide) (by decide) (by decide)
      (by decide) (by decide) (by decide)).mp h) (by decide)

/-! ## Claim C8: an existing foreign cluster-role-binding is not clobbered -/

/-- **C8.** With `targets.clusterScoped=true` and an existing
cluster-role-binding named `targets.name` whose annotations are not a
superset of the source's ownership annotations, `SyncTarget` issues no write
at all and returns without error. -/
theorem clusterScoped_foreign_binding_not_clobbered
    (re : RegexEngine) (st : ClusterState) (cr : DynamicRoleBinding)
    (subs : List RbacSubject) (crb : ClusterRoleBindingObj)
    (hexp : ExpandSubjects re st cr = .ok subs)
    (hcs : cr.spec.targets.clusterScoped = true)
    (hfind : st.clusterRoleBindings.find?
        (fun c => decide (c.name = cr.spec.targets.name)) = some crb)
    (hforeign : IsSubset (referenceAnnotationsOf cr) crb.annotations = false) :
    DynamicRoleBindingSyncTarget re st cr = .ok [] := by
  rw [DynamicRoleBindingSyncTarget, hexp]
  simp only [hcs, if_true, hfind]
  rw [if_pos (by rw [hforeign]; exact Bool.false_ne_true)]

/-- C8 scenario source CR: same `User` source, `clusterScoped=true`. -/
def clusterScopedBinding : DynamicRoleBinding :=
  ⟨"kuberbac.prosimcorp.com/v1alpha1", "DynamicRoleBinding", "example", "default",
   ⟨userBindingSource, ⟨"x", [], [], true, zeroNamespaceSelector⟩⟩⟩

/-- C8 scenario cluster: a cluster-role-binding named `x` exists without the
ownership annotations. -/
def foreignCrbState : ClusterState :=
  ⟨[⟨"ns1", []⟩], [], [], [⟨"x", [("team", "other")]⟩]⟩

/-- Witness for C8: the synthesizer refuses to overwrite the foreign
cluster-role-binding and reports success. -/
theorem clusterScoped_foreign_binding_not_clobbered_witness :
    DynamicRoleBindingSyncTarget trivialRegexEngine foreignCrbState
      clusterScopedBinding = .ok [] :=
  clusterScoped_foreign_binding_not_clobbered trivialRegexEngine foreignCrbState
    clusterScopedBinding [⟨"User", "rbac.authorization.k8s.io", "alice", ""⟩]
    ⟨"x", [("team", "other")]⟩ (by decide) (by decide) (by decide) (by decide)

/-! ## Claim C9: empty target namespace selector -/

/-- C9 scenario source CR: `clusterScoped=false` and a zero (empty) target
namespace selector. -/
def emptyTargetSelectorBinding : DynamicRoleBinding :=
  ⟨"kuberbac.prosimcorp.com/v1alpha1", "DynamicRoleBinding", "example", "default",
   ⟨userBindingSource, ⟨"x", [], [], false, zeroNamespaceSelector⟩⟩⟩

/-- C9 scenario cluster: a single namespace `ns1`, nothing else. -/
def singleNamespaceState : ClusterState := ⟨[⟨"ns1", []⟩], [], [], []⟩

/-- **C9 counterexample.** With `clusterScoped=false` and a zero target
namespace selector, the synthesizer does create a role binding: the empty
selector selects every namespace of the cluster (here `ns1`), refuting the
claim that the target namespace set is empty and no role binding is
created. -/
theorem empty_target_selector_creates_bindings_counterexample :
    DynamicRoleBindingSyncTarget trivialRegexEngine singleNamespaceState
      emptyTargetSelectorBinding =
      .ok [BindingOp.updateRoleBinding "x" "ns1"] ∧
    DynamicRoleBindingSyncTarget trivialRegexEngine singleNamespaceState
      emptyTargetSelectorBinding ≠ .ok [] := ⟨by decide, by decide⟩

/-- **C9 (amended).** With `clusterScoped=false` and a zero target namespace
selector, the target namespace set is the names of all cluster namespaces,
and (absent a conflicting same-name foreign binding) a role binding is
upserted in every namespace. -/
theorem empty_target_selector_selects_all_namespaces
    (re : RegexEngine) (st : ClusterState) (cr : DynamicRoleBinding)
    (ops : List BindingOp)
    (hcs : cr.spec.targets.clusterScoped = false)
    (hzero : cr.spec.targets.namespaceSelector.isZero = true)
    (hok : DynamicRoleBindingSyncTarget re st cr = .ok ops)
    (hnoskip : ∀ rb ∈ st.roleBindings,
        ¬ (rb.name = cr.spec.targets.name ∧
           ¬ IsSubset (mapsCopy cr.spec.targets.annotations (referenceAnnotationsOf cr))
              rb.annotations = true)) :
    FilterNamespaceListBySelector re st.namespaces cr.spec.targets.namespaceSelector =
      .ok (st.namespaces.map NamespaceObj.name) ∧
    ∀ ns ∈ st.namespaces, BindingOp.updateRoleBinding cr.spec.targets.name ns.name ∈ ops := by
  have hfil : FilterNamespaceListBySelector re st.namespaces
      cr.spec.targets.namespaceSelector = .ok (st.namespaces.map NamespaceObj.name) := by
    rw [FilterNamespaceListBySelector, if_pos hzero]
  refine ⟨hfil, ?_⟩
  cases hexp : ExpandSubjects re st cr with
  | error e =>
      rw [DynamicRoleBindingSyncTarget, hexp] at hok
      exact absurd hok (by simp)
  | ok subs =>
      rw [DynamicRoleBindingSyncTarget, hexp] at hok
      simp only [hcs, Bool.false_eq_true, if_false, hfil] at hok
      rw [Except.ok.injEq] at hok
      subst hok
      intro ns hns
      refine List.mem_append_left _ ?_
      exact mem_upsertFold_of_noskip st.roleBindings cr.spec.targets.name
        (mapsCopy cr.spec.targets.annotations (referenceAnnotationsOf cr)) hnoskip
        (st.namespaces.map NamespaceObj.name) [] ns.name
        (List.mem_map_of_mem NamespaceObj.name hns)

/-- Witness for the amended C9 on the single-namespace cluster. -/
theorem empty_target_selector_selects_all_namespaces_witness :
    FilterNamespaceListBySelector trivialRegexEngine singleNamespaceState.namespaces
        emptyTargetSelectorBinding.spec.targets.namespaceSelector =
      .ok ["ns1"] ∧
    BindingOp.updateRoleBinding "x" "ns1" ∈ [BindingOp.updateRoleBinding "x" "ns1"] := by
  have h := empty_target_selector_selects_all_namespaces trivialRegexEngine
    singleNamespaceState emptyTargetSelectorBinding
    [BindingOp.updateRoleBinding "x" "ns1"] (by decide) (by decide) (by decide)
    (by intro rb hrb; exact absurd hrb (List.not_mem_nil rb))
  exact ⟨h.1, h.2 ⟨"ns1", []⟩ (by decide)⟩

/-! ## Claim C10: empty filtered namespace list skips the namespace
restriction entirely -/

theorem serviceAccountStep_empty_eq (re : RegexEngine)
    (subject : DynamicRoleBindingSourceSubject) (nsAll : List String)
    (acc : List ServiceAccountObj) (sa : ServiceAccountObj)
    (h : sa.nsName ∈ nsAll) :
    serviceAccountStep re [] subject acc sa =
      serviceAccountStep re nsAll subject acc sa := by
  unfold serviceAccountStep
  rw [if_neg (show ¬(([] : List String) ≠ [] ∧ sa.nsName ∉ ([] : List String)) by simp)]
  rw [if_neg (show ¬(nsAll ≠ [] ∧ sa.nsName ∉ nsAll) by simp [h])]

theorem serviceAccountFold_empty_eq (re : RegexEngine)
    (subject : DynamicRoleBindingSourceSubject) (nsAll : List String) :
    ∀ (l : List ServiceAccountObj) (acc : List ServiceAccountObj),
      (∀ sa ∈ l, sa.nsName ∈ nsAll) →
      l.foldl (serviceAccountStep re [] subject) acc =
        l.foldl (serviceAccountStep re nsAll subject) acc := by
  intro l
  induction l with
  | nil => intro acc _; rfl
  | cons sa rest ih =>
      intro acc h
      simp only [List.foldl_cons]
      rw [serviceAccountStep_empty_eq re subject nsAll acc sa
        (h sa (List.mem_cons_self _ _))]
      exact ih _ (fun sa1 h1 => h sa1 (List.mem_cons_of_mem _ h1))

/-- **C10.** When the filtered namespace list handed to
`GetServiceAccountsBySelectors` is empty, the namespace restriction is
skipped entirely: the selection behaves exactly as if every namespace of the
cluster had been listed, so service accounts from every namespace are
considered. -/
theorem empty_namespace_filter_considers_all_serviceAccounts
    (re : RegexEngine) (allServiceAccounts : List ServiceAccountObj)
    (subject : DynamicRoleBindingSourceSubject) (nsAll : List String)
    (h : ∀ sa ∈ allServiceAccounts, sa.nsName ∈ nsAll) :
    GetServiceAccountsBySelectors re allServiceAccounts [] subject =
      GetServiceAccountsBySelectors re allServiceAccounts nsAll subject := by
  unfold GetServiceAccountsBySelectors
  by_cases h1 : ¬ subject.nameSelector.isZero = true ∧ ¬ subject.metaSelector.isZero = true
  · rw [if_pos h1, if_pos h1]
  · rw [if_neg h1, if_neg h1]
    by_cases h2 : ¬ subject.metaSelector.isZero = true ∧
        ¬ CheckMetaSelector subject.metaSelector = true
    · rw [if_pos h2, if_pos h2]
    · rw [if_neg h2, if_neg h2]
      by_cases h3 : ¬ subject.nameSelector.isZero = true ∧
          ¬ CheckNameSelector subject.nameSelector = true
      · rw [if_pos h3, if_pos h3]
      · rw [if_neg h3, if_neg h3]
        by_cases h4 : subject.nameSelector.matchRegex.expression ≠ "" ∧
            ¬ (re.valid subject.nameSelector.matchRegex.expression = true)
        · rw [if_pos h4, if_pos h4]
        · rw [if_neg h4, if_neg h4]
          exact congrArg Except.ok
            (serviceAccountFold_empty_eq re subject nsAll allServiceAccounts [] h)

/-- A `ServiceAccount` subject selecting the name `sa1`. -/
def saNameSubject : DynamicRoleBindingSourceSubject :=
  ⟨"", "ServiceAccount", zeroMetaSelector, ⟨["sa1"], zeroMatchRegex⟩,
   zeroNamespaceSelector⟩

/-- Witness for C10: with an empty filtered namespace list, the service
account living in namespace `other` is selected exactly as with the full
namespace list — not dropped. -/
theorem empty_namespace_filter_considers_all_serviceAccounts_witness :
    GetServiceAccountsBySelectors trivialRegexEngine [⟨"sa1", "other", [], []⟩]
        [] saNameSubject =
      GetServiceAccountsBySelectors trivialRegexEngine [⟨"sa1", "other", [], []⟩]
        ["other"] saNameSubject ∧
    GetServiceAccountsBySelectors trivialRegexEngine [⟨"sa1", "other", [], []⟩]
        [] saNameSubject = .ok [⟨"sa1", "other", [], []⟩] := by
  constructor
  · exact empty_namespace_filter_considers_all_serviceAccounts trivialRegexEngine
      [⟨"sa1", "other", [], []⟩] saNameSubject ["other"] (by decide)
  · decide

end Kuberbac
